import Mathlib

/- A verification model of the dependency-graph analysis engine of this
   repository (src/graph.ts): package-name resolution, the single-file
   analyzer of import declarations, graph aggregation, cycle detection,
   report assembly and the incremental report builder.

   Modelling conventions:
   * File-system paths are canonical absolute slash-separated strings, so
     path.resolve is the identity and path.sep is the slash.
   * JavaScript Map / Set / Record values are association lists and
     duplicate-free lists that preserve insertion order, mirroring the
     deterministic iteration order of the originals.
   * The sha1 content hash used only for change detection is modelled by
     the file content itself (an injective stand-in).
   * The TypeScript syntax-tree walk is abstracted: a file is seen as the
     list of import events (module specifier plus type-only mark) that the
     walk in analyzeSourceFile extracts; everything downstream of the walk
     (processImport and later stages) is translated from the source.
   * String primitives are re-implemented over the character list of a
     String so that all definitions evaluate by kernel reduction. -/

namespace Retracify

/-! ## String primitives -/

def strLower (s : String) : String := ⟨s.data.map Char.toLower⟩

def strStartsWith (s p : String) : Bool := p.data.isPrefixOf s.data

def strEndsWith (s p : String) : Bool := p.data.reverse.isPrefixOf s.data.reverse

def strLen (s : String) : Nat := s.data.length

def strDrop (s : String) (n : Nat) : String := ⟨s.data.drop n⟩

def splitCharsOn (sep : Char) : List Char → List Char → List (List Char)
  | [], acc => [acc.reverse]
  | c :: rest, acc =>
    if c = sep then acc.reverse :: splitCharsOn sep rest []
    else splitCharsOn sep rest (c :: acc)

def strSplitOn (s : String) (sep : Char) : List String :=
  (splitCharsOn sep s.data []).map (fun l => ⟨l⟩)

def charsContainsSub (sub : List Char) : List Char → Bool
  | [] => sub.isEmpty
  | c :: rest => sub.isPrefixOf (c :: rest) || charsContainsSub sub rest

def strContainsSub (s sub : String) : Bool := charsContainsSub sub.data s.data

def strJoin (sep : String) : List String → String
  | [] => ""
  | [s] => s
  | s :: rest => s ++ sep ++ strJoin sep rest

/-! ## Ordered-set and association-list helpers (JS Set / Map / Record) -/

def addUnique (l : List String) (x : String) : List String :=
  if l.contains x then l else l ++ [x]

def bumpCount (k : String) (n : Nat) : List (String × Nat) → List (String × Nat)
  | [] => [(k, n)]
  | (k', v) :: rest => if k' = k then (k', v + n) :: rest else (k', v) :: bumpCount k n rest

def lookupCount : List (String × Nat) → String → Nat
  | [], _ => 0
  | e :: rest, k => if e.1 = k then e.2 else lookupCount rest k

def assocFind {α : Type} : List (String × α) → String → Option α
  | [], _ => none
  | e :: rest, k => if e.1 = k then some e.2 else assocFind rest k

def assocSet {α : Type} (k : String) (v : α) : List (String × α) → List (String × α)
  | [] => [(k, v)]
  | (k', v') :: rest => if k' = k then (k, v) :: rest else (k', v') :: assocSet k v rest

def assocErase {α : Type} (k : String) : List (String × α) → List (String × α)
  | [] => []
  | (k', v') :: rest => if k' = k then rest else (k', v') :: assocErase k rest

def assocHas {α : Type} (l : List (String × α)) (k : String) : Bool :=
  (assocFind l k).isSome

/-! ## Package records and file-to-package resolution (graph.ts lines 24-52) -/

structure PkgInfo where
  name : String
  version : String := ""
  description : Option String := none
  dir : String
  declaredDeps : Option (List String) := none
  declaredProdDeps : Option (List String) := none
  declaredDevDeps : Option (List String) := none
  hasTsconfig : Bool := false
  hasTailwindConfig : Bool := false
  hasAutoprefixer : Bool := false
  hasEslintConfig : Bool := false
  hasChildPackages : Bool := false
  toolingDeps : Option (List String) := none
  fileCount : Nat := 0
deriving Repr, DecidableEq

def buildPackageDirectoryMap (pkgList : List PkgInfo) : List (String × String) :=
  pkgList.foldl (fun m pkg => assocSet pkg.dir pkg.name m) []

def insertByDirLen (e : String × String) : List (String × String) → List (String × String)
  | [] => [e]
  | f :: rest =>
    if strLen f.1 < strLen e.1 then e :: f :: rest else f :: insertByDirLen e rest

def sortByDirLenDesc (l : List (String × String)) : List (String × String) :=
  l.foldl (fun acc e => insertByDirLen e acc) []

def isWithinDir (dir file : String) : Bool :=
  file == dir || strStartsWith file (dir ++ "/")

def resolvePackageForFile (filePath : String) (pkgDirMap : List (String × String)) :
    Option String :=
  ((sortByDirLenDesc pkgDirMap).find? (fun e => isWithinDir e.1 filePath)).map (·.2)

/-! ## Import-specifier normalization (utils.ts lines 428-434) -/

def normalizeImportSpecifier (spec : String) : String :=
  if strStartsWith spec "@" then
    match strSplitOn spec '/' with
    | scope :: nm :: _ => if nm = "" then spec else scope ++ "/" ++ nm
    | _ => spec
  else (strSplitOn spec '/').headD ""

/-! ## Workspace-package resolution (graph.ts lines 75-97) -/

def tryNamePrefixes (pkgNames : List String) (segs : List String) (minI : Nat) :
    Nat → Option String
  | 0 => none
  | i + 1 =>
    if i + 1 < minI then none
    else
      let candidate := strJoin "/" (segs.take (i + 1))
      if pkgNames.contains candidate then some candidate
      else tryNamePrefixes pkgNames segs minI i

def resolveWorkspacePackage (pkgNames : List String) (spec : String) : Option String :=
  if spec = "" then none
  else
    let segments := strSplitOn spec '/'
    let fromSegs :=
      if strStartsWith spec "@" then tryNamePrefixes pkgNames segments 2 segments.length
      else tryNamePrefixes pkgNames segments 1 segments.length
    match fromSegs with
    | some c => some c
    | none =>
      let normalized := normalizeImportSpecifier spec
      if pkgNames.contains normalized then some normalized else none

/-! ## Path-shape predicates (graph.ts lines 62, 506-559)

The critical-rebuild regexes are all anchored at the end of the
slash-normalized path with a start-or-slash boundary and contain no
slash-matching piece, so each depends only on the (lowercased) final path
segment; they are translated accordingly. -/

def lastSegment (p : String) : String := (strSplitOn p '/').getLastD ""

def normalizeSlashes (p : String) : String :=
  ⟨p.data.map (fun c => if c = '\\' then '/' else c)⟩

def isDeclarationFile (filePath : String) : Bool :=
  let l := strLower filePath
  strEndsWith l ".d.ts" || strEndsWith l ".d.cts" || strEndsWith l ".d.mts"

def extname (p : String) : String :=
  let base := lastSegment p
  match strSplitOn base '.' with
  | [] => ""
  | [_] => ""
  | first :: rest =>
    if first = "" ∧ rest.length = 1 then ""
    else "." ++ rest.getLastD ""

def SOURCE_FILE_EXTENSIONS : List String :=
  [".ts", ".tsx", ".js", ".jsx", ".cjs", ".mjs", ".cts", ".mts"]

def isSourceFile (filePath : String) : Bool :=
  SOURCE_FILE_EXTENSIONS.contains (strLower (extname filePath))

def matchesCriticalPattern (seg : String) : Bool :=
  seg == "package.json" ||
  strStartsWith seg "tsconfig." ||
  seg == ".eslintrc" || (strStartsWith seg ".eslintrc." && decide (10 < strLen seg)) ||
  (strStartsWith seg "eslint.config." && decide (14 < strLen seg)) ||
  (strStartsWith seg "tailwind.config." && decide (16 < strLen seg)) ||
  (strStartsWith seg "postcss.config." && decide (15 < strLen seg)) ||
  (strStartsWith seg "vitest.config." && decide (14 < strLen seg)) ||
  (strStartsWith seg "jest.config." && decide (12 < strLen seg))

def requiresFullRebuildForPath (filePath : String) : Bool :=
  matchesCriticalPattern (strLower (lastSegment (normalizeSlashes filePath)))

/-! ## External-dependency name classifiers (graph.ts lines 459-504, 701-713) -/

def isLikelyTypePackageName (name : String) : Bool :=
  let n := strLower name
  strStartsWith n "@types/" || strEndsWith n "-types" ||
  strStartsWith n "types-" || strStartsWith n "types/"

def matchesKnownTooling (name : String) : Bool :=
  let n := strLower name
  n == "prettier" || strStartsWith n "prettier-" ||
  n == "eslint" || strStartsWith n "eslint-" ||
  strStartsWith n "@eslint/" || strStartsWith n "@typescript-eslint/" ||
  strStartsWith n "eslint-plugin-" || strStartsWith n "eslint-config-" ||
  n == "eslint-parser" || n == "eslint-import" ||
  n == "stylelint" || strStartsWith n "stylelint-" || strStartsWith n "@stylelint/" ||
  n == "lint-staged" || n == "husky" ||
  n == "commitlint" || strStartsWith n "@commitlint/" ||
  n == "babel" || strStartsWith n "@babel/" ||
  n == "rollup" || strStartsWith n "rollup-" ||
  n == "webpack" || strStartsWith n "webpack-" ||
  n == "parcel" || n == "esbuild" || n == "tsup" ||
  n == "ts-node" || strStartsWith n "ts-node-" || n == "ts-jest" ||
  n == "jest" || strStartsWith n "jest-" ||
  n == "vitest" || n == "vite" ||
  n == "swc" || strStartsWith n "@swc/" ||
  n == "nodemon" || n == "rimraf" || n == "pm2" || n == "turbo" || n == "nx" ||
  n == "postcss" || strStartsWith n "postcss-"

def isEslintRelatedName (nameLower : String) : Bool :=
  nameLower == "eslint" ||
  strStartsWith nameLower "eslint-" ||
  strStartsWith nameLower "@eslint/" ||
  strStartsWith nameLower "@typescript-eslint/" ||
  strContainsSub nameLower "eslint-plugin" ||
  strContainsSub nameLower "eslint-config" ||
  strContainsSub nameLower "eslint-parser" ||
  strContainsSub nameLower "eslint-import"

/-! ## Type-only import/export marking (graph.ts lines 99-124)

An import clause is modelled by its type-only flag, whether a default name
binding is present, and — when its named bindings are NamedImports — the
list of element type-only flags. -/

structure ImportSpecifierModel where
  isTypeOnly : Bool
deriving Repr, DecidableEq

structure ImportClauseModel where
  isTypeOnly : Bool
  hasName : Bool
  namedImports : Option (List ImportSpecifierModel)
deriving Repr, DecidableEq

def isTypeOnlyImportDeclaration (clause : Option ImportClauseModel) : Bool :=
  match clause with
  | none => false
  | some c =>
    if c.isTypeOnly then true
    else
      match c.namedImports with
      | some els =>
        if decide (0 < els.length) && els.all (·.isTypeOnly) then !c.hasName else false
      | none => false

def isTypeOnlyExportDeclaration (isTypeOnly : Bool)
    (namedExports : Option (List ImportSpecifierModel)) : Bool :=
  if isTypeOnly then true
  else
    match namedExports with
    | some els => decide (0 < els.length) && els.all (·.isTypeOnly)
    | none => false

/-! ## The single-file import analyzer (graph.ts lines 126-325) -/

structure ImportEvent where
  spec : String
  isTypeOnly : Bool := false
deriving Repr, DecidableEq

def eventOfImportDecl (clause : Option ImportClauseModel) (spec : String) : ImportEvent :=
  { spec := spec, isTypeOnly := isTypeOnlyImportDeclaration clause }

def eventOfExportDecl (isTypeOnly : Bool)
    (namedExports : Option (List ImportSpecifierModel)) (spec : String) : ImportEvent :=
  { spec := spec, isTypeOnly := isTypeOnlyExportDeclaration isTypeOnly namedExports }

structure AnalyzerEnv where
  pkgDirMap : List (String × String)
  pkgNames : List String
  aliasResolve : String → String → List String
  builtins : List String

structure AnalysisState where
  internalReferenceCounts : List (String × Nat) := []
  internalDependencies : List String := []
  externalReferenceCounts : List (String × Nat) := []
deriving Repr, DecidableEq

def recordInternalDependency (st : AnalysisState) (target : String) : AnalysisState :=
  { st with
    internalDependencies := addUnique st.internalDependencies target,
    internalReferenceCounts := bumpCount target 1 st.internalReferenceCounts }

def recordExternalReference (st : AnalysisState) (spec : String) : AnalysisState :=
  let externalName := normalizeImportSpecifier spec
  if externalName = "" then st
  else { st with externalReferenceCounts := bumpCount externalName 1 st.externalReferenceCounts }

def processImport (env : AnalyzerEnv) (filePath fromPkg : String) (isDeclFile : Bool)
    (st : AnalysisState) (ev : ImportEvent) : AnalysisState :=
  if ev.spec = "" then st
  else if strStartsWith ev.spec "." || strStartsWith ev.spec ".." ||
      strStartsWith ev.spec "/" || strStartsWith ev.spec "file:" then st
  else
    let treatAsTypeOnly := ev.isTypeOnly || isDeclFile
    let normalizedBuiltin := if strStartsWith ev.spec "node:" then strDrop ev.spec 5 else ev.spec
    if env.builtins.contains ev.spec || env.builtins.contains normalizedBuiltin then st
    else
      match (env.aliasResolve filePath ev.spec).findSome?
          (fun cand => (resolvePackageForFile cand env.pkgDirMap).map (fun p => (cand, p))) with
      | some (_, aliasPkg) =>
        if aliasPkg = fromPkg then st
        else if !treatAsTypeOnly then recordInternalDependency st aliasPkg else st
      | none =>
        match resolveWorkspacePackage env.pkgNames ev.spec with
        | some target =>
          if target ≠ fromPkg then
            if !treatAsTypeOnly then recordInternalDependency st target else st
          else recordExternalReference st ev.spec
        | none => recordExternalReference st ev.spec

structure FileAnalysis where
  filePath : String
  pkgName : Option String
  hash : Option String
  internalReferenceCounts : List (String × Nat)
  internalDependencies : List String
  externalReferenceCounts : List (String × Nat)
deriving Repr, DecidableEq

def emptyAnalysis (filePath : String) (pkgName : Option String) : FileAnalysis :=
  { filePath := filePath, pkgName := pkgName, hash := none,
    internalReferenceCounts := [], internalDependencies := [],
    externalReferenceCounts := [] }

def analyzeSourceFile (env : AnalyzerEnv) (events : String → String → List ImportEvent)
    (filePath : String) (content : Option String) : FileAnalysis :=
  let fromPkg := resolvePackageForFile filePath env.pkgDirMap
  match fromPkg with
  | none => emptyAnalysis filePath none
  | some fp =>
    match content with
    | none => emptyAnalysis filePath (some fp)
    | some sourceText =>
      let isDeclFile := isDeclarationFile filePath
      let st := (events filePath sourceText).foldl
        (processImport env filePath fp isDeclFile) {}
      { filePath := filePath, pkgName := some fp, hash := some sourceText,
        internalReferenceCounts := st.internalReferenceCounts,
        internalDependencies := st.internalDependencies,
        externalReferenceCounts := st.externalReferenceCounts }

/-! ## Aggregation of per-file analyses (graph.ts lines 327-384) -/

structure AggregatedGraphData where
  edges : List (String × List String) := []
  referenceCount : List (String × Nat) := []
  externalReferenceCount : List (String × List (String × Nat)) := []
  dependencyOrigins : List (String × List (String × List String)) := []
deriving Repr, DecidableEq

def ensureKey {α : Type} (k : String) (v : α) (l : List (String × α)) : List (String × α) :=
  if assocHas l k then l else l ++ [(k, v)]

def assocUpdate {α : Type} (k : String) (f : α → α) : List (String × α) → List (String × α)
  | [] => []
  | (k', v) :: rest => if k' = k then (k', f v) :: rest else (k', v) :: assocUpdate k f rest

def aggStep (a : FileAnalysis)
    (acc : List String × List (String × Nat) × List (String × List String))
    (dep : String) :
    List String × List (String × Nat) × List (String × List String) :=
  let edgeSet := addUnique acc.1 dep
  let count := lookupCount a.internalReferenceCounts dep
  let refCount := if 0 < count then bumpCount dep count acc.2.1 else acc.2.1
  let originMap := ensureKey dep [] acc.2.2
  let originMap := assocUpdate dep (fun s => addUnique s a.filePath) originMap
  (edgeSet, refCount, originMap)

def applyAnalysisToAggregated (a : FileAnalysis) (agg : AggregatedGraphData) :
    AggregatedGraphData :=
  match a.pkgName with
  | none => agg
  | some pkgName =>
    let agg1 :=
      if a.internalDependencies.isEmpty then agg
      else
        let edges0 := ensureKey pkgName [] agg.edges
        let origins0 := ensureKey pkgName [] agg.dependencyOrigins
        let folded := a.internalDependencies.foldl (aggStep a)
          ((assocFind edges0 pkgName).getD [], agg.referenceCount,
            (assocFind origins0 pkgName).getD [])
        { agg with
          edges := assocSet pkgName folded.1 edges0,
          referenceCount := folded.2.1,
          dependencyOrigins := assocSet pkgName folded.2.2 origins0 }
    if a.externalReferenceCounts.isEmpty then agg1
    else
      let ext0 := ensureKey pkgName [] agg1.externalReferenceCount
      let extMap := a.externalReferenceCounts.foldl (fun m e => bumpCount e.1 e.2 m)
        ((assocFind ext0 pkgName).getD [])
      { agg1 with externalReferenceCount := assocSet pkgName extMap ext0 }

def buildAggregatedGraphData (analyses : List FileAnalysis) : AggregatedGraphData :=
  analyses.foldl (fun agg a => applyAnalysisToAggregated a agg) {}

/-! ## Cycle detection (graph.ts lines 387-435)

The recursive depth-first search is written with an explicit fuel
parameter; the top-level entry point supplies fuel exceeding the greatest
possible recursion depth (one beyond the number of node occurrences in the
edge map), so the model never actually exhausts it. -/

def edgeKey (a b : String) : String := a ++ "->" ++ b

def edgesLookup (edges : List (String × List String)) (node : String) : List String :=
  (assocFind edges node).getD []

structure DfsState where
  visited : List String := []
  stack : List String := []
  cyclicEdges : List String := []
deriving Repr, DecidableEq

def chainPairs : List String → List (String × String)
  | a :: b :: rest => (a, b) :: chainPairs (b :: rest)
  | _ => []

def listIndexOf (dep : String) : List String → Option Nat
  | [] => none
  | a :: rest => if a = dep then some 0 else (listIndexOf dep rest).map (· + 1)

def markPathCycle (node dep : String) (path : List String) (ce : List String) : List String :=
  match listIndexOf dep path with
  | none => ce
  | some idx =>
    (chainPairs (path.drop idx ++ [node])).foldl
      (fun ce p => addUnique ce (edgeKey p.1 p.2)) ce

def dfsStep (edges : List (String × List String)) :
    Nat → String → List String → DfsState → DfsState
  | 0, _, _, st => st
  | fuel + 1, node, path, st =>
    let st0 := { st with
      visited := addUnique st.visited node, stack := addUnique st.stack node }
    let st1 := (edgesLookup edges node).foldl
      (fun (st : DfsState) dep =>
        if st.stack.contains dep then
          let ce := addUnique st.cyclicEdges (edgeKey node dep)
          { st with cyclicEdges := markPathCycle node dep path ce }
        else if !st.visited.contains dep then dfsStep edges fuel dep (path ++ [node]) st
        else st) st0
    { st1 with stack := st1.stack.erase node }

def dfsFuelBound (edges : List (String × List String)) : Nat :=
  edges.foldl (fun n e => n + 1 + e.2.length) 1

def identifyCyclicEdges (edges : List (String × List String)) : List String :=
  let nodes := edges.map (·.1)
  (nodes.foldl
    (fun (st : DfsState) node =>
      if st.visited.contains node then st
      else dfsStep edges (dfsFuelBound edges) node [] st)
    {}).cyclicEdges

/-! ## Report assembly (graph.ts lines 452-457, 561-802) -/

structure ReportAssemblyContext where
  pkgInfoList : List PkgInfo
  pkgDirByName : List (String × String)
  workspaceNames : List String
  resolvedRoot : String
deriving Repr, DecidableEq

structure PackageDependencyDetail where
  name : String
  files : List String
  fileCount : Nat
deriving Repr, DecidableEq

structure PackageExternalDependency where
  name : String
  isDeclared : Bool
  isUsed : Bool
  usageCount : Nat
  declaredInDependencies : Bool
  declaredInDevDependencies : Bool
  isLikelyTypePackage : Bool
  isToolingOnly : Bool
deriving Repr, DecidableEq, Inhabited

structure ReportPackage where
  name : String
  version : String
  description : Option String
  fileCount : Nat
  relativeDir : String
  isRoot : Bool
  hasChildPackages : Bool
  hasTailwindConfig : Bool
  hasTsconfig : Bool
  hasAutoprefixer : Bool
  hasEslintConfig : Bool
  dependencies : List String
  declaredDeps : List String
  undeclaredDeps : List String
  references : Nat
  cyclicDeps : List String
  dependencyDetails : List PackageDependencyDetail
  externalDependencies : List PackageExternalDependency
  undeclaredExternalDeps : List String
  unusedExternalDeps : List String
  toolingDeps : List String
deriving Repr, DecidableEq, Inhabited

structure GraphData where
  edges : List (String × List String)
  cyclicEdges : List String := []
  referenceCount : List (String × Nat) := []
  externalReferenceCount : List (String × List (String × Nat)) := []
  dependencyOrigins : List (String × List (String × List String)) := []
deriving Repr, DecidableEq

def dropCommon : List String → List String → List String × List String
  | a :: as, b :: bs => if a = b then dropCommon as bs else (a :: as, b :: bs)
  | as, bs => (as, bs)

def pathRelative (base file : String) : String :=
  let p := dropCommon (strSplitOn base '/') (strSplitOn file '/')
  strJoin "/" (p.1.map (fun _ => "..") ++ p.2)

def dedupStrings (l : List String) : List String := l.foldl addUnique []

def charListLe : List Char → List Char → Bool
  | [], _ => true
  | _ :: _, [] => false
  | a :: as, b :: bs => if a = b then charListLe as bs else decide (a < b)

def strLe (a b : String) : Bool := charListLe a.data b.data

def insertSorted (x : String) : List String → List String
  | [] => [x]
  | y :: rest => if strLe x y then x :: y :: rest else y :: insertSorted x rest

def sortStrings (l : List String) : List String := l.foldl (fun acc x => insertSorted x acc) []

def addExternalName (workspaceNames : List String) (s : List String)
    (declared : String) : List String :=
  let normalized := normalizeImportSpecifier declared
  if workspaceNames.contains normalized then s else addUnique s normalized

def optNonEmpty : Option (List String) → List String
  | some l => if 0 < l.length then l else []
  | none => []

def fallbackDeclaredOf (pkgInfo : PkgInfo) : List String :=
  if (optNonEmpty pkgInfo.declaredProdDeps).length = 0 ∧
      (optNonEmpty pkgInfo.declaredDevDeps).length = 0 then
    pkgInfo.declaredDeps.getD []
  else []

def declaredDependencyNames (pkgInfo : PkgInfo) : List String :=
  dedupStrings (optNonEmpty pkgInfo.declaredProdDeps ++ optNonEmpty pkgInfo.declaredDevDeps ++
    fallbackDeclaredOf pkgInfo)

def withTrailingSlash (dir : String) : String :=
  if strEndsWith dir "/" then dir else dir ++ "/"

def containerFilteredDeps (pkgDirByName : List (String × String))
    (edges : List (String × List String)) (pkgInfo : PkgInfo) : List String :=
  let containerDir := withTrailingSlash pkgInfo.dir
  (edgesLookup edges pkgInfo.name).filter (fun dep =>
    match assocFind pkgDirByName dep with
    | none => true
    | some depDir => !(strStartsWith (withTrailingSlash depDir) containerDir))

def dependencyDetailFor (context : ReportAssemblyContext)
    (dependencyOriginsForPkg : List (String × List String)) (resolvedDir : String)
    (dep : String) : PackageDependencyDetail :=
  let files := match assocFind dependencyOriginsForPkg dep with
    | some originFiles => originFiles.map (fun file =>
        let relativeToPkg := pathRelative resolvedDir file
        let relative :=
          if relativeToPkg != "" && !strStartsWith relativeToPkg ".." then relativeToPkg
          else pathRelative context.resolvedRoot file
        normalizeSlashes relative)
    | none => []
  let uniqueFiles := sortStrings (dedupStrings files)
  { name := dep, files := uniqueFiles, fileCount := uniqueFiles.length }

def declaredExternalProdNamesOf (context : ReportAssemblyContext) (pkgInfo : PkgInfo) :
    List String :=
  let base := (optNonEmpty pkgInfo.declaredProdDeps).foldl
    (addExternalName context.workspaceNames) []
  if 0 < (fallbackDeclaredOf pkgInfo).length then
    (fallbackDeclaredOf pkgInfo).foldl (addExternalName context.workspaceNames) base
  else base

def declaredExternalDevNamesOf (context : ReportAssemblyContext) (pkgInfo : PkgInfo) :
    List String :=
  (optNonEmpty pkgInfo.declaredDevDeps).foldl (addExternalName context.workspaceNames) []

def classifyOneExternal (pkgInfo : PkgInfo) (externalUsage : List (String × Nat))
    (toolingDepSet declaredExternalProdNames declaredExternalDevNames : List String)
    (name : String) : PackageExternalDependency :=
  let usageCount := lookupCount externalUsage name
  let declaredInDependencies := declaredExternalProdNames.contains name
  let declaredInDevDependencies := declaredExternalDevNames.contains name
  let isLikelyTypePackage := isLikelyTypePackageName name
  let nameLower := strLower name
  let isEslintRelated := isEslintRelatedName nameLower
  let isScriptUsed := toolingDepSet.contains name
  let knownTooling := matchesKnownTooling name
  let declaredDevOnly := declaredInDevDependencies && !declaredInDependencies
  let isToolingOnly :=
    (name == "typescript" && pkgInfo.hasTsconfig) ||
    (name == "tailwindcss" && pkgInfo.hasTailwindConfig) ||
    (name == "autoprefixer" && pkgInfo.hasAutoprefixer) ||
    (pkgInfo.hasEslintConfig && isEslintRelated) ||
    isScriptUsed ||
    (knownTooling && (declaredDevOnly || isScriptUsed))
  let isDeclared := declaredInDependencies || declaredInDevDependencies
  let isUsed := decide (0 < usageCount) || isToolingOnly
  { name := name, isDeclared := isDeclared, isUsed := isUsed, usageCount := usageCount,
    declaredInDependencies := declaredInDependencies,
    declaredInDevDependencies := declaredInDevDependencies,
    isLikelyTypePackage := isLikelyTypePackage,
    isToolingOnly := isToolingOnly }

def classifyExternalDependencies (context : ReportAssemblyContext) (pkgInfo : PkgInfo)
    (externalUsage : List (String × Nat)) : List PackageExternalDependency :=
  let toolingDepSet := (pkgInfo.toolingDeps.getD []).map normalizeImportSpecifier
  let declaredExternalProdNames := declaredExternalProdNamesOf context pkgInfo
  let declaredExternalDevNames := declaredExternalDevNamesOf context pkgInfo
  let declaredExternalNames :=
    dedupStrings (declaredExternalProdNames ++ declaredExternalDevNames)
  let declaredExternalNames :=
    (declaredDependencyNames pkgInfo).foldl
      (addExternalName context.workspaceNames) declaredExternalNames
  let externalNames := dedupStrings (declaredExternalNames ++ externalUsage.map (·.1))
  externalNames.map (classifyOneExternal pkgInfo externalUsage toolingDepSet
    declaredExternalProdNames declaredExternalDevNames)

def filterExternalsForContainer (pkgInfo : PkgInfo)
    (externalDependencies : List PackageExternalDependency) :
    List PackageExternalDependency :=
  if pkgInfo.hasChildPackages then
    externalDependencies.filter (fun d => d.isUsed || d.isToolingOnly)
  else externalDependencies

def assemblePackage (context : ReportAssemblyContext) (data : GraphData)
    (pkgInfo : PkgInfo) : ReportPackage :=
  let deps := containerFilteredDeps context.pkgDirByName data.edges pkgInfo
  let directCyclicDeps := deps.filter
    (fun dep => data.cyclicEdges.contains (edgeKey pkgInfo.name dep))
  let declaredSet := declaredDependencyNames pkgInfo
  let declaredDeps := deps.filter (fun dep => declaredSet.contains dep)
  let undeclaredDeps := deps.filter (fun dep => !declaredSet.contains dep)
  let dependencyOriginsForPkg := (assocFind data.dependencyOrigins pkgInfo.name).getD []
  let dependencyDetails :=
    deps.map (dependencyDetailFor context dependencyOriginsForPkg pkgInfo.dir)
  let externalUsage := (assocFind data.externalReferenceCount pkgInfo.name).getD []
  let externalDependencies := classifyExternalDependencies context pkgInfo externalUsage
  let filteredExternalDependencies :=
    filterExternalsForContainer pkgInfo externalDependencies
  let undeclaredExternalDeps :=
    (filteredExternalDependencies.filter (fun d => d.isUsed && !d.isDeclared)).map (·.name)
  let unusedExternalDeps :=
    (filteredExternalDependencies.filter (fun d =>
      d.isDeclared && !d.isUsed && !d.isLikelyTypePackage && !d.isToolingOnly)).map (·.name)
  let relativeDirRaw := pathRelative context.resolvedRoot pkgInfo.dir
  let relativeDir := if relativeDirRaw = "" then "." else relativeDirRaw
  { name := pkgInfo.name,
    version := pkgInfo.version,
    description := pkgInfo.description,
    fileCount := pkgInfo.fileCount,
    relativeDir := relativeDir,
    isRoot := pkgInfo.dir == context.resolvedRoot,
    hasChildPackages := pkgInfo.hasChildPackages,
    hasTailwindConfig := pkgInfo.hasTailwindConfig,
    hasTsconfig := pkgInfo.hasTsconfig,
    hasAutoprefixer := pkgInfo.hasAutoprefixer,
    hasEslintConfig := pkgInfo.hasEslintConfig,
    dependencies := deps,
    declaredDeps := declaredDeps,
    undeclaredDeps := undeclaredDeps,
    references := lookupCount data.referenceCount pkgInfo.name,
    cyclicDeps := directCyclicDeps,
    dependencyDetails := dependencyDetails,
    externalDependencies := filteredExternalDependencies,
    undeclaredExternalDeps := undeclaredExternalDeps,
    unusedExternalDeps := unusedExternalDeps,
    toolingDeps := pkgInfo.toolingDeps.getD [] }

def assembleReportPackages (context : ReportAssemblyContext) (data : GraphData) :
    List ReportPackage :=
  context.pkgInfoList.map (assemblePackage context data)

structure DependencyReport where
  rootDir : String
  packages : List ReportPackage
deriving Repr, DecidableEq

def composeDependencyReport (context : ReportAssemblyContext) (data : GraphData) :
    DependencyReport :=
  { rootDir := context.resolvedRoot, packages := assembleReportPackages context data }

/-! ## The incremental dependency report builder (graph.ts lines 880-1197)

A Workspace packages the external collaborators the builder calls out to:
discoverPackages (the packages field), collectSourceFiles (the files
field), stat (fileExists), readFile (content, none when the read fails),
the loaded tsconfig alias resolvers (aliasResolve) and the platform
builtin-module set (builtins), together with the syntax-tree walk
abstraction (events). -/

structure Workspace where
  rootDir : String
  packages : List PkgInfo
  files : List String
  fileExists : String → Bool
  content : String → Option String
  events : String → String → List ImportEvent
  aliasResolve : String → String → List String
  builtins : List String

def pkgDirByNameOf (pkgs : List PkgInfo) : List (String × String) :=
  pkgs.foldl (fun m p => assocSet p.name p.dir m) []

def contextOf (rootDir : String) (pkgs : List PkgInfo) : ReportAssemblyContext :=
  { pkgInfoList := pkgs,
    pkgDirByName := pkgDirByNameOf pkgs,
    workspaceNames := (pkgDirByNameOf pkgs).map (·.1),
    resolvedRoot := rootDir }

structure BuilderState where
  pkgInfoList : List PkgInfo := []
  aliasResolve : String → String → List String := fun _ _ => []
  fileAnalyses : List (String × FileAnalysis) := []
  initialized : Bool := false
  lastReport : Option DependencyReport := none

def stateEnv (W : Workspace) (S : BuilderState) : AnalyzerEnv :=
  { pkgDirMap := buildPackageDirectoryMap S.pkgInfoList,
    pkgNames := (pkgDirByNameOf S.pkgInfoList).map (·.1),
    aliasResolve := S.aliasResolve,
    builtins := W.builtins }

def composeCurrentReport (context : ReportAssemblyContext)
    (cache : List (String × FileAnalysis)) : DependencyReport :=
  let agg := buildAggregatedGraphData (cache.map (·.2))
  composeDependencyReport context
    { edges := agg.edges,
      cyclicEdges := identifyCyclicEdges agg.edges,
      referenceCount := agg.referenceCount,
      externalReferenceCount := agg.externalReferenceCount,
      dependencyOrigins := agg.dependencyOrigins }

def scanStep (analyze : String → FileAnalysis)
    (cache : List (String × FileAnalysis)) (f : String) : List (String × FileAnalysis) :=
  let analysis := analyze f
  if analysis.pkgName.isSome then assocSet f analysis cache else cache

def scanWorkspaceFiles (W : Workspace) (env : AnalyzerEnv) :
    List (String × FileAnalysis) :=
  W.files.foldl (scanStep (fun f => analyzeSourceFile env W.events f (W.content f))) []

def baseState (W : Workspace) : BuilderState :=
  { pkgInfoList := W.packages, aliasResolve := W.aliasResolve,
    fileAnalyses := [], initialized := true, lastReport := none }

def rebuiltState (W : Workspace) : BuilderState :=
  let cache := scanWorkspaceFiles W (stateEnv W (baseState W))
  let report := composeCurrentReport (contextOf W.rootDir W.packages) cache
  { baseState W with fileAnalyses := cache, lastReport := some report }

def performFullRebuild (W : Workspace) : Except String BuilderState :=
  if W.packages.isEmpty then
    Except.error ("No packages found in " ++ W.rootDir)
  else
    Except.ok (rebuiltState W)

def normalizeChangedFiles (paths : List String) : List String :=
  (paths.filter (fun raw => raw ≠ "")).foldl addUnique []

def collectUpdates (W : Workspace) : List String → Option (List (String × Bool))
  | [] => some []
  | p :: rest =>
    if requiresFullRebuildForPath p then none
    else
      let tail := collectUpdates W rest
      if isSourceFile p then tail.map (fun u => (p, W.fileExists p) :: u)
      else tail

def applyOneUpdate (W : Workspace) (S : BuilderState)
    (acc : List (String × FileAnalysis) × Bool) (u : String × Bool) :
    List (String × FileAnalysis) × Bool :=
  if u.2 then
    let analysis := analyzeSourceFile (stateEnv W S) W.events u.1 (W.content u.1)
    if analysis.pkgName.isSome then
      match assocFind acc.1 u.1 with
      | some previous =>
        if previous.hash = analysis.hash then acc
        else (assocSet u.1 analysis acc.1, true)
      | none => (assocSet u.1 analysis acc.1, true)
    else if assocHas acc.1 u.1 then (assocErase u.1 acc.1, true) else acc
  else if assocHas acc.1 u.1 then (assocErase u.1 acc.1, true) else acc

def applyChanges (W : Workspace) (S : BuilderState) (paths : List String) :
    Except String (Bool × BuilderState) :=
  if paths.isEmpty then Except.ok (false, S)
  else
    match collectUpdates W paths with
    | none => (performFullRebuild W).map (fun S' => (true, S'))
    | some updates =>
      if updates.isEmpty then Except.ok (false, S)
      else
        let res := updates.foldl (applyOneUpdate W S) (S.fileAnalyses, false)
        Except.ok (res.2, { S with fileAnalyses := res.1 })

structure IncrementalBuildOptions where
  changedFiles : List String := []
  forceFullRebuild : Bool := false

def finishCompose (W : Workspace) (S : BuilderState) :
    DependencyReport × BuilderState :=
  let report := composeCurrentReport (contextOf W.rootDir S.pkgInfoList) S.fileAnalyses
  (report, { S with lastReport := some report })

def buildReport (W : Workspace) (S : BuilderState) (options : IncrementalBuildOptions) :
    Except String (DependencyReport × BuilderState) :=
  if !S.initialized || options.forceFullRebuild then
    (performFullRebuild W).map (finishCompose W)
  else
    let normalizedChanges := normalizeChangedFiles options.changedFiles
    if 0 < normalizedChanges.length then
      match applyChanges W S normalizedChanges with
      | Except.error e => Except.error e
      | Except.ok (applied, S1) =>
        if !applied then
          match S1.lastReport with
          | some r => Except.ok (r, S1)
          | none => Except.ok (finishCompose W S1)
        else Except.ok (finishCompose W S1)
    else if S.lastReport.isNone then (performFullRebuild W).map (finishCompose W)
    else Except.ok (finishCompose W S)

def generateDependencyReport (W : Workspace) :
    Except String (DependencyReport × BuilderState) :=
  buildReport W {} { forceFullRebuild := true }

/-! ## Concrete fixtures for scenarios, witnesses and counterexamples -/

def graphAB : List (String × List String) := [("A", ["B"]), ("B", ["A"])]

def graphTriangle : List (String × List String) :=
  [("A", ["B", "C"]), ("B", ["C"]), ("C", ["A"])]

def pkgA : PkgInfo := { name := "A", dir := "/ws/a" }

def pkgB : PkgInfo := { name := "B", dir := "/ws/b" }

def wsAB : Workspace :=
  { rootDir := "/ws",
    packages := [pkgA, pkgB],
    files := ["/ws/a/index.ts", "/ws/b/index.ts"],
    fileExists := fun f => f == "/ws/a/index.ts" || f == "/ws/b/index.ts",
    content := fun f =>
      if f = "/ws/a/index.ts" then some "uses bee from B"
      else if f = "/ws/b/index.ts" then some "uses aye from A" else none,
    events := fun f _ =>
      if f = "/ws/a/index.ts" then [{ spec := "B" }]
      else if f = "/ws/b/index.ts" then [{ spec := "A" }] else [],
    aliasResolve := fun _ _ => [],
    builtins := [] }

def envAB : AnalyzerEnv :=
  { pkgDirMap := [("/ws/a", "A"), ("/ws/b", "B")],
    pkgNames := ["A", "B"],
    aliasResolve := fun _ _ => [],
    builtins := [] }

def pkgD : PkgInfo := { name := "D", dir := "/ws/d" }

def wsD : Workspace :=
  { rootDir := "/ws",
    packages := [pkgD],
    files := ["/ws/d/main.ts"],
    fileExists := fun f => f == "/ws/d/main.ts",
    content := fun _ => some "uses axios from axios",
    events := fun _ _ => [{ spec := "axios" }],
    aliasResolve := fun _ _ => [],
    builtins := [] }

def clauseDefaultAndTypeOnly : ImportClauseModel :=
  { isTypeOnly := false, hasName := true, namedImports := some [{ isTypeOnly := true }] }

def editFileContent (W : Workspace) (f : String) (newContent : Option String) : Workspace :=
  { W with content := fun g => if g = f then newContent else W.content g }

def ctxAB : ReportAssemblyContext := contextOf "/ws" [pkgA, pkgB]

def cacheAB : List (String × FileAnalysis) :=
  [("/ws/a/index.ts",
    analyzeSourceFile envAB wsAB.events "/ws/a/index.ts" (some "uses bee from B"))]

def gdataAB : GraphData := { edges := graphAB }

def pkgParent : PkgInfo := { name := "P", dir := "/ws/p" }

def pkgChild : PkgInfo := { name := "Q", dir := "/ws/p/q" }

def ctxPC : ReportAssemblyContext := contextOf "/ws" [pkgParent, pkgChild, pkgB]

def gdataPC : GraphData := { edges := [("P", ["Q", "B"])] }

def pkgC : PkgInfo := { name := "C", dir := "/ws/c", declaredProdDeps := some ["lodash"] }

def ctxC : ReportAssemblyContext := contextOf "/ws" [pkgC]

def gdataC : GraphData :=
  { edges := [], externalReferenceCount := [("C", [("lodash", 1)])] }

def ctxD : ReportAssemblyContext := contextOf "/ws" [pkgD]

def gdataD : GraphData :=
  { edges := [], externalReferenceCount := [("D", [("axios", 1)])] }

def wsEmpty : Workspace := { wsAB with packages := [] }

def wsUnreadable : Workspace := { wsD with content := fun _ => none }

def readyState : BuilderState := { initialized := true }

/-! ## Basic lemmas about the set and map helpers -/

theorem contains_iff_mem {l : List String} {x : String} : l.contains x = true ↔ x ∈ l := by
  simp [List.contains, List.elem_iff]

theorem mem_addUnique {l : List String} {x y : String} :
    y ∈ addUnique l x ↔ y ∈ l ∨ y = x := by
  unfold addUnique
  by_cases h : l.contains x = true
  · rw [if_pos h]
    constructor
    · exact Or.inl
    · rintro (hy | rfl)
      · exact hy
      · exact contains_iff_mem.mp h
  · rw [if_neg h]
    simp

theorem mem_foldl_addUnique {l init : List String} {y : String} :
    y ∈ l.foldl addUnique init ↔ y ∈ init ∨ y ∈ l := by
  induction l generalizing init with
  | nil => simp
  | cons a rest ih =>
    simp only [List.foldl_cons, ih, mem_addUnique, List.mem_cons]
    tauto

theorem mem_dedupStrings {l : List String} {y : String} :
    y ∈ dedupStrings l ↔ y ∈ l := by
  unfold dedupStrings
  rw [mem_foldl_addUnique]
  simp

theorem assocFind_set_self {α : Type} (l : List (String × α)) (k : String) (v : α) :
    assocFind (assocSet k v l) k = some v := by
  induction l with
  | nil => simp [assocSet, assocFind]
  | cons e rest ih =>
    by_cases h : e.1 = k
    · simp [assocSet, assocFind, h]
    · simp [assocSet, assocFind, h, ih]

theorem assocFind_set_other {α : Type} (l : List (String × α)) {k k' : String} (v : α)
    (h : k' ≠ k) : assocFind (assocSet k v l) k' = assocFind l k' := by
  induction l with
  | nil => simp [assocSet, assocFind, Ne.symm h]
  | cons e rest ih =>
    by_cases he : e.1 = k
    · subst he
      simp [assocSet, assocFind, Ne.symm h]
    · simp [assocSet, assocFind, he, ih]

theorem assocFind_append_absent {α : Type} (l : List (String × α)) (k k' : String) (v : α)
    (hnone : assocFind l k = none) :
    assocFind (l ++ [(k, v)]) k' = if k' = k then some v else assocFind l k' := by
  induction l with
  | nil =>
    by_cases hk : k' = k
    · simp [assocFind, hk]
    · simp [assocFind, hk, Ne.symm hk]
  | cons e rest ih =>
    simp only [assocFind] at hnone
    by_cases he : e.1 = k
    · simp [he] at hnone
    · simp only [if_neg he] at hnone
      by_cases he' : e.1 = k'
      · have : k' ≠ k := fun hc => he (he'.trans hc)
        simp [assocFind, he', this]
      · simp [assocFind, he', ih hnone]

theorem assocFind_ensureKey {α : Type} (l : List (String × α)) (k k' : String) (v : α) :
    assocFind (ensureKey k v l) k' =
      if k' = k then some ((assocFind l k).getD v) else assocFind l k' := by
  unfold ensureKey assocHas
  by_cases h : (assocFind l k).isSome
  · rw [if_pos h]
    rcases Option.isSome_iff_exists.mp h with ⟨w, hw⟩
    by_cases hk : k' = k
    · subst hk
      simp [hw]
    · simp [hk]
  · have hnone : assocFind l k = none := Option.not_isSome_iff_eq_none.mp h
    rw [if_neg h, assocFind_append_absent l k k' v hnone]
    by_cases hk : k' = k
    · simp [hk, hnone]
    · simp [hk]

/-! ## Analyzer lemmas: self-imports never become internal edges -/

theorem recordExternal_internalDeps (st : AnalysisState) (s : String) :
    (recordExternalReference st s).internalDependencies = st.internalDependencies := by
  simp only [recordExternalReference]
  split <;> rfl

theorem mem_recordInternal {st : AnalysisState} {t x : String} :
    x ∈ (recordInternalDependency st t).internalDependencies ↔
      x ∈ st.internalDependencies ∨ x = t := by
  simp [recordInternalDependency, mem_addUnique]

theorem processImport_no_new_self {env : AnalyzerEnv} {f fromPkg : String} {d : Bool}
    {st : AnalysisState} {ev : ImportEvent} {x : String}
    (hx : x ∈ (processImport env f fromPkg d st ev).internalDependencies) :
    x ∈ st.internalDependencies ∨ x ≠ fromPkg := by
  simp only [processImport] at hx
  repeat' split at hx
  all_goals
    first
      | exact Or.inl hx
      | (rw [recordExternal_internalDeps] at hx; exact Or.inl hx)
      | (rcases mem_recordInternal.mp hx with h | rfl
         · exact Or.inl h
         · right
           assumption)

theorem analyzeSourceFile_no_self {env : AnalyzerEnv}
    {events : String → String → List ImportEvent} {filePath : String}
    {content : Option String} {n : String}
    (hn : (analyzeSourceFile env events filePath content).pkgName = some n) :
    n ∉ (analyzeSourceFile env events filePath content).internalDependencies := by
  simp only [analyzeSourceFile] at hn ⊢
  rcases hp : resolvePackageForFile filePath env.pkgDirMap with _ | fp <;> rw [hp] at hn
  · simp [emptyAnalysis] at hn
  · rcases content with _ | text
    · simp [emptyAnalysis]
    · have hfp : fp = n := by simpa using hn
      subst hfp
      simp only
      intro hmem
      have key : ∀ (evs : List ImportEvent) (st0 : AnalysisState),
          fp ∉ st0.internalDependencies →
          fp ∉ (evs.foldl (processImport env filePath fp (isDeclarationFile filePath))
            st0).internalDependencies := by
        intro evs
        induction evs with
        | nil =>
          intro st0 hbase
          simpa using hbase
        | cons ev rest ih =>
          intro st0 hbase
          simp only [List.foldl_cons]
          apply ih
          intro hmem2
          rcases processImport_no_new_self hmem2 with h | h
          · exact hbase h
          · exact h rfl
      exact key _ {} (by simp [AnalysisState.internalDependencies]) hmem

/-! ## Aggregation lemmas: every edge comes from some analysis -/

theorem aggFold_fst (a : FileAnalysis) (deps : List String)
    (acc : List String × List (String × Nat) × List (String × List String)) :
    (deps.foldl (aggStep a) acc).1 = deps.foldl addUnique acc.1 := by
  induction deps generalizing acc with
  | nil => rfl
  | cons d rest ih => simp only [List.foldl_cons, ih, aggStep]

theorem edgesLookup_ensureKey (e : List (String × List String)) (k n : String) :
    edgesLookup (ensureKey k [] e) n = edgesLookup e n := by
  unfold edgesLookup
  rw [assocFind_ensureKey]
  by_cases hk : n = k
  · subst hk
    rcases h : assocFind e n with _ | v <;> simp [h]
  · simp [hk]

theorem edges_applyAnalysis (a : FileAnalysis) (agg : AggregatedGraphData) {n x : String}
    (hx : x ∈ edgesLookup (applyAnalysisToAggregated a agg).edges n) :
    x ∈ edgesLookup agg.edges n ∨ (a.pkgName = some n ∧ x ∈ a.internalDependencies) := by
  unfold applyAnalysisToAggregated at hx
  rcases hpkg : a.pkgName with _ | pkgName <;> rw [hpkg] at hx
  · exact Or.inl hx
  · have hext : ∀ agg1 : AggregatedGraphData,
        (if a.externalReferenceCounts.isEmpty then agg1
          else
            let ext0 := ensureKey pkgName [] agg1.externalReferenceCount
            let extMap := a.externalReferenceCounts.foldl (fun m e => bumpCount e.1 e.2 m)
              ((assocFind ext0 pkgName).getD [])
            { agg1 with externalReferenceCount := assocSet pkgName extMap ext0 }).edges =
          agg1.edges := by
      intro agg1
      split <;> rfl
    simp only [hext] at hx
    by_cases hempty : a.internalDependencies.isEmpty
    · rw [if_pos hempty] at hx
      exact Or.inl hx
    · rw [if_neg hempty] at hx
      simp only [aggFold_fst] at hx
      by_cases hn : n = pkgName
      · subst hn
        unfold edgesLookup at hx
        rw [assocFind_set_self] at hx
        rcases mem_foldl_addUnique.mp hx with h | h
        · left
          rw [← edgesLookup_ensureKey agg.edges n n]
          exact h
        · exact Or.inr ⟨rfl, h⟩
      · left
        unfold edgesLookup at hx
        rw [assocFind_set_other _ _ hn] at hx
        rw [← edgesLookup_ensureKey agg.edges pkgName n]
        exact hx

theorem edges_buildAgg {analyses : List FileAnalysis} {n x : String}
    (hx : x ∈ edgesLookup (buildAggregatedGraphData analyses).edges n) :
    ∃ a ∈ analyses, a.pkgName = some n ∧ x ∈ a.internalDependencies := by
  unfold buildAggregatedGraphData at hx
  have key : ∀ (l : List FileAnalysis) (agg : AggregatedGraphData),
      x ∈ edgesLookup (l.foldl (fun agg a => applyAnalysisToAggregated a agg) agg).edges n →
      x ∈ edgesLookup agg.edges n ∨ ∃ a ∈ l, a.pkgName = some n ∧ x ∈ a.internalDependencies := by
    intro l
    induction l with
    | nil =>
      intro agg h
      exact Or.inl h
    | cons a rest ih =>
      intro agg h
      rcases ih _ h with h1 | ⟨b, hb, hname, hmem⟩
      · rcases edges_applyAnalysis a agg h1 with h2 | h2
        · exact Or.inl h2
        · exact Or.inr ⟨a, List.mem_cons_self a rest, h2⟩
      · exact Or.inr ⟨b, List.mem_cons_of_mem a hb, hname, hmem⟩
  rcases key analyses {} hx with h | h
  · simp [edgesLookup, assocFind, AggregatedGraphData.edges] at h
  · exact h

/-! ## Report-field lemmas -/

theorem assemblePackage_name (context : ReportAssemblyContext) (data : GraphData)
    (pkgInfo : PkgInfo) : (assemblePackage context data pkgInfo).name = pkgInfo.name := rfl

theorem assemblePackage_dependencies (context : ReportAssemblyContext) (data : GraphData)
    (pkgInfo : PkgInfo) :
    (assemblePackage context data pkgInfo).dependencies =
      containerFilteredDeps context.pkgDirByName data.edges pkgInfo := rfl

theorem assemblePackage_declaredDeps (context : ReportAssemblyContext) (data : GraphData)
    (pkgInfo : PkgInfo) :
    (assemblePackage context data pkgInfo).declaredDeps =
      (containerFilteredDeps context.pkgDirByName data.edges pkgInfo).filter
        (fun dep => (declaredDependencyNames pkgInfo).contains dep) := rfl

theorem assemblePackage_undeclaredDeps (context : ReportAssemblyContext) (data : GraphData)
    (pkgInfo : PkgInfo) :
    (assemblePackage context data pkgInfo).undeclaredDeps =
      (containerFilteredDeps context.pkgDirByName data.edges pkgInfo).filter
        (fun dep => !(declaredDependencyNames pkgInfo).contains dep) := rfl

theorem assemblePackage_cyclicDeps (context : ReportAssemblyContext) (data : GraphData)
    (pkgInfo : PkgInfo) :
    (assemblePackage context data pkgInfo).cyclicDeps =
      (containerFilteredDeps context.pkgDirByName data.edges pkgInfo).filter
        (fun dep => data.cyclicEdges.contains (edgeKey pkgInfo.name dep)) := rfl

theorem assemblePackage_externalDependencies (context : ReportAssemblyContext)
    (data : GraphData) (pkgInfo : PkgInfo) :
    (assemblePackage context data pkgInfo).externalDependencies =
      filterExternalsForContainer pkgInfo
        (classifyExternalDependencies context pkgInfo
          ((assocFind data.externalReferenceCount pkgInfo.name).getD [])) := rfl

theorem assemblePackage_undeclaredExternalDeps (context : ReportAssemblyContext)
    (data : GraphData) (pkgInfo : PkgInfo) :
    (assemblePackage context data pkgInfo).undeclaredExternalDeps =
      ((assemblePackage context data pkgInfo).externalDependencies.filter
        (fun d => d.isUsed && !d.isDeclared)).map (fun d => d.name) := rfl

theorem assemblePackage_unusedExternalDeps (context : ReportAssemblyContext)
    (data : GraphData) (pkgInfo : PkgInfo) :
    (assemblePackage context data pkgInfo).unusedExternalDeps =
      ((assemblePackage context data pkgInfo).externalDependencies.filter
        (fun d => d.isDeclared && !d.isUsed && !d.isLikelyTypePackage &&
          !d.isToolingOnly)).map (fun d => d.name) := rfl

theorem containerFilteredDeps_subset (pkgDirByName : List (String × String))
    (edges : List (String × List String)) (pkgInfo : PkgInfo) :
    containerFilteredDeps pkgDirByName edges pkgInfo ⊆ edgesLookup edges pkgInfo.name := by
  intro x hx
  unfold containerFilteredDeps at hx
  exact List.mem_of_mem_filter hx

/-! ## Graph reachability and cycle membership -/

def EdgeStep (edges : List (String × List String)) (a b : String) : Prop :=
  b ∈ edgesLookup edges a

instance (edges : List (String × List String)) (a b : String) :
    Decidable (EdgeStep edges a b) := by
  unfold EdgeStep
  infer_instance

def ReachableFrom (edges : List (String × List String)) : String → String → Prop :=
  Relation.ReflTransGen (EdgeStep edges)

def OnCycle (edges : List (String × List String)) (a b : String) : Prop :=
  EdgeStep edges a b ∧ ReachableFrom edges b a

def SoundKey (edges : List (String × List String)) (k : String) : Prop :=
  ∃ a b, k = edgeKey a b ∧ OnCycle edges a b

/-! ## Chain and reachability helper lemmas -/

theorem chain_drop {R : String → String → Prop} {l : List String} (h : List.Chain' R l)
    (i : Nat) : List.Chain' R (l.drop i) := by
  induction i generalizing l with
  | zero => simpa using h
  | succ n ih =>
    cases l with
    | nil => simp
    | cons a rest => simpa using ih h.tail

theorem chain_reach_from_head {R : String → String → Prop} {l : List String} {x a : String}
    (h : List.Chain' R (x :: l)) (ha : a ∈ x :: l) : Relation.ReflTransGen R x a := by
  induction l generalizing x with
  | nil =>
    simp only [List.mem_singleton] at ha
    subst ha
    exact Relation.ReflTransGen.refl
  | cons y rest ih =>
    rcases List.mem_cons.mp ha with rfl | ha'
    · exact Relation.ReflTransGen.refl
    · have hxy : R x y := (List.chain'_cons.mp h).1
      exact Relation.ReflTransGen.head hxy (ih (List.chain'_cons.mp h).2 ha')

theorem chain_reach_to_concat {R : String → String → Prop} {l : List String}
    {node a : String} (h : List.Chain' R (l ++ [node])) (ha : a ∈ l ++ [node]) :
    Relation.ReflTransGen R a node := by
  induction l generalizing a with
  | nil =>
    simp only [List.nil_append, List.mem_singleton] at ha
    subst ha
    exact Relation.ReflTransGen.refl
  | cons x rest ih =>
    rcases List.mem_cons.mp ha with rfl | ha'
    · exact chain_reach_from_head h (by simp)
    · exact ih h.tail ha'

theorem chainPairs_edge {R : String → String → Prop} {l : List String}
    (h : List.Chain' R l) {a b : String} (hab : (a, b) ∈ chainPairs l) : R a b := by
  induction l with
  | nil => simp [chainPairs] at hab
  | cons x rest ih =>
    cases rest with
    | nil => simp [chainPairs] at hab
    | cons y rest' =>
      rcases List.mem_cons.mp hab with heq | hmem
      · obtain ⟨rfl, rfl⟩ := Prod.ext_iff.mp heq
        exact (List.chain'_cons.mp h).1
      · exact ih (List.chain'_cons.mp h).2 hmem

theorem chainPairs_mem {l : List String} {a b : String} (hab : (a, b) ∈ chainPairs l) :
    a ∈ l ∧ b ∈ l := by
  induction l with
  | nil => simp [chainPairs] at hab
  | cons x rest ih =>
    cases rest with
    | nil => simp [chainPairs] at hab
    | cons y rest' =>
      rcases List.mem_cons.mp hab with heq | hmem
      · obtain ⟨rfl, rfl⟩ := Prod.ext_iff.mp heq
        exact ⟨List.mem_cons_self .., List.mem_cons_of_mem _ (List.mem_cons_self ..)⟩
      · rcases ih hmem with ⟨ha, hb⟩
        exact ⟨List.mem_cons_of_mem _ ha, List.mem_cons_of_mem _ hb⟩

theorem listIndexOf_drop {path : List String} {dep : String} {idx : Nat}
    (h : listIndexOf dep path = some idx) :
    idx < path.length ∧ path.drop idx = dep :: path.drop (idx + 1) := by
  induction path generalizing idx with
  | nil => simp [listIndexOf] at h
  | cons a rest ih =>
    unfold listIndexOf at h
    by_cases ha : a = dep
    · rw [if_pos ha] at h
      obtain rfl : (0 : Nat) = idx := by simpa using h
      subst ha
      simp
    · rw [if_neg ha] at h
      rcases hrec : listIndexOf dep rest with _ | j <;> rw [hrec] at h
      · simp at h
      · obtain rfl : j + 1 = idx := by simpa using h
        rcases ih hrec with ⟨hlt, hdrop⟩
        constructor
        · simpa using Nat.succ_lt_succ hlt
        · simpa using hdrop

theorem addUnique_of_not_mem {l : List String} {x : String} (h : x ∉ l) :
    addUnique l x = l ++ [x] := by
  unfold addUnique
  rw [if_neg (fun hc => h (contains_iff_mem.mp hc))]

theorem mem_foldl_addKeys {pairs : List (String × String)} {ce : List String} {k : String}
    (hk : k ∈ pairs.foldl (fun ce p => addUnique ce (edgeKey p.1 p.2)) ce) :
    k ∈ ce ∨ ∃ p ∈ pairs, k = edgeKey p.1 p.2 := by
  induction pairs generalizing ce with
  | nil => exact Or.inl hk
  | cons p rest ih =>
    rcases ih hk with h | ⟨q, hq, hkey⟩
    · rcases mem_addUnique.mp h with h' | rfl
      · exact Or.inl h'
      · exact Or.inr ⟨p, List.mem_cons_self .., rfl⟩
    · exact Or.inr ⟨q, List.mem_cons_of_mem _ hq, hkey⟩

/-! ## Soundness invariant of the cycle-detection DFS -/

theorem dfsStep_invariant (edges : List (String × List String)) :
    ∀ (fuel : Nat) (node : String) (path : List String) (st : DfsState),
      st.stack = path →
      (path ++ [node]).Nodup →
      (∀ x ∈ path, x ∈ st.visited) →
      List.Chain' (EdgeStep edges) (path ++ [node]) →
      (∀ k ∈ st.cyclicEdges, SoundKey edges k) →
      (dfsStep edges fuel node path st).stack = st.stack ∧
      (∀ x ∈ st.visited, x ∈ (dfsStep edges fuel node path st).visited) ∧
      (∀ k ∈ (dfsStep edges fuel node path st).cyclicEdges, SoundKey edges k) := by
  intro fuel
  induction fuel with
  | zero =>
    intro node path st h1 h2 h3 h4 h5
    exact ⟨rfl, fun x hx => hx, h5⟩
  | succ fuel ih =>
    intro node path st hstack hnodup hvis hchain hsound
    have hnode_not_path : node ∉ path := fun hc =>
      (List.nodup_append.mp hnodup).2.2 hc (List.mem_singleton_self node)
    have hfold : ∀ (deps : List String), (∀ d ∈ deps, d ∈ edgesLookup edges node) →
        ∀ (s : DfsState), s.stack = path ++ [node] →
        (∀ x ∈ path ++ [node], x ∈ s.visited) →
        (∀ k ∈ s.cyclicEdges, SoundKey edges k) →
        (deps.foldl
          (fun (st : DfsState) dep =>
            if st.stack.contains dep then
              let ce := addUnique st.cyclicEdges (edgeKey node dep)
              { st with cyclicEdges := markPathCycle node dep path ce }
            else if !st.visited.contains dep then dfsStep edges fuel dep (path ++ [node]) st
            else st) s).stack = path ++ [node] ∧
        (∀ x ∈ s.visited, x ∈ (deps.foldl
          (fun (st : DfsState) dep =>
            if st.stack.contains dep then
              let ce := addUnique st.cyclicEdges (edgeKey node dep)
              { st with cyclicEdges := markPathCycle node dep path ce }
            else if !st.visited.contains dep then dfsStep edges fuel dep (path ++ [node]) st
            else st) s).visited) ∧
        (∀ k ∈ (deps.foldl
          (fun (st : DfsState) dep =>
            if st.stack.contains dep then
              let ce := addUnique st.cyclicEdges (edgeKey node dep)
              { st with cyclicEdges := markPathCycle node dep path ce }
            else if !st.visited.contains dep then dfsStep edges fuel dep (path ++ [node]) st
            else st) s).cyclicEdges, SoundKey edges k) := by
      intro deps
      induction deps with
      | nil =>
        intro _ s hs hall hsd
        exact ⟨hs, fun x hx => hx, hsd⟩
      | cons dep rest ihdeps =>
        intro hdeps s hs hall hsd
        have hdep_edge : dep ∈ edgesLookup edges node := hdeps dep (List.mem_cons_self ..)
        have hback : EdgeStep edges node dep := hdep_edge
        simp only [List.foldl_cons]
        by_cases hc : s.stack.contains dep
        · rw [if_pos hc]
          have hdep_mem : dep ∈ path ++ [node] := by
            rw [← hs]
            exact contains_iff_mem.mp hc
          have honback : OnCycle edges node dep :=
            ⟨hback, chain_reach_to_concat hchain hdep_mem⟩
          have hmark : ∀ k ∈ markPathCycle node dep path
              (addUnique s.cyclicEdges (edgeKey node dep)), SoundKey edges k := by
            intro k hk
            unfold markPathCycle at hk
            rcases hidx : listIndexOf dep path with _ | i <;> rw [hidx] at hk
            · rcases mem_addUnique.mp hk with h | rfl
              · exact hsd _ h
              · exact ⟨node, dep, rfl, honback⟩
            · rcases mem_foldl_addKeys hk with h | ⟨p, hp, rfl⟩
              · rcases mem_addUnique.mp h with h' | rfl
                · exact hsd _ h'
                · exact ⟨node, dep, rfl, honback⟩
              · rcases listIndexOf_drop hidx with ⟨hlt, hdrop⟩
                have hseg : path.drop i ++ [node] = (path ++ [node]).drop i := by
                  rw [List.drop_append_of_le_length (Nat.le_of_lt hlt)]
                have hchain_seg : List.Chain' (EdgeStep edges) (path.drop i ++ [node]) := by
                  rw [hseg]
                  exact chain_drop hchain i
                have hedge : EdgeStep edges p.1 p.2 := chainPairs_edge hchain_seg hp
                rcases chainPairs_mem hp with ⟨hp1, hp2⟩
                have h1 : ReachableFrom edges p.2 node := chain_reach_to_concat hchain_seg hp2
                have hhead : path.drop i ++ [node] = dep :: (path.drop (i + 1) ++ [node]) := by
                  rw [hdrop]
                  rfl
                have h2 : ReachableFrom edges dep p.1 := by
                  rw [hhead] at hchain_seg hp1
                  exact chain_reach_from_head hchain_seg hp1
                have hreach : ReachableFrom edges p.2 p.1 :=
                  h1.trans (Relation.ReflTransGen.head hback h2)
                exact ⟨p.1, p.2, rfl, hedge, hreach⟩
          exact ihdeps (fun d hd => hdeps d (List.mem_cons_of_mem _ hd)) _ hs hall hmark
        · rw [if_neg hc]
          by_cases hv : s.visited.contains dep
          · simp only [hv, Bool.not_true, Bool.false_eq_true, if_false]
            exact ihdeps (fun d hd => hdeps d (List.mem_cons_of_mem _ hd)) _ hs hall hsd
          · simp only [hv, Bool.not_false, if_true]
            have hdep_notin : dep ∉ path ++ [node] := fun hmem =>
              hv (contains_iff_mem.mpr (hall dep hmem))
            have hnodup2 : ((path ++ [node]) ++ [dep]).Nodup := by
              rw [List.nodup_append]
              refine ⟨hnodup, List.nodup_singleton _, ?_⟩
              intro a ha hb
              rw [List.mem_singleton] at hb
              subst hb
              exact hdep_notin ha
            have hchain2 : List.Chain' (EdgeStep edges) ((path ++ [node]) ++ [dep]) := by
              apply List.Chain'.append hchain (List.chain'_singleton _)
              intro x hx y hy
              rw [List.getLast?_concat] at hx
              simp only [List.head?_cons, Option.mem_some_iff] at hx hy
              subst hx
              subst hy
              exact hback
            rcases ih dep (path ++ [node]) s hs hnodup2 hall hchain2 hsd with
              ⟨hs', hm', hsd'⟩
            rw [hs] at hs'
            rcases ihdeps (fun d hd => hdeps d (List.mem_cons_of_mem _ hd)) _ hs'
                (fun x hx => hm' x (hall x hx)) hsd' with ⟨ha, hb, hcc⟩
            refine ⟨ha, ?_, hcc⟩
            intro x hx
            exact hb x (hm' x hx)
    -- assemble the outer step
    simp only [dfsStep]
    have hstack0 : (addUnique st.stack node) = path ++ [node] := by
      rw [hstack]
      exact addUnique_of_not_mem hnode_not_path
    have hall0 : ∀ x ∈ path ++ [node], x ∈ addUnique st.visited node := by
      intro x hx
      rcases List.mem_append.mp hx with h | h
      · exact mem_addUnique.mpr (Or.inl (hvis x h))
      · rw [List.mem_singleton] at h
        exact mem_addUnique.mpr (Or.inr h)
    rcases hfold (edgesLookup edges node) (fun d hd => hd)
        { st with visited := addUnique st.visited node, stack := addUnique st.stack node }
        hstack0 hall0 hsound with ⟨hst1, hm1, hsd1⟩
    refine ⟨?_, ?_, hsd1⟩
    · rw [hst1, hstack]
      rw [List.erase_append_right _ hnode_not_path]
      simp
    · intro x hx
      exact hm1 x (mem_addUnique.mpr (Or.inl hx))

theorem identifyCyclicEdges_soundKeys (edges : List (String × List String)) :
    ∀ k ∈ identifyCyclicEdges edges, SoundKey edges k := by
  unfold identifyCyclicEdges
  have key : ∀ (nodes : List String) (st : DfsState), st.stack = [] →
      (∀ k ∈ st.cyclicEdges, SoundKey edges k) →
      ((nodes.foldl
        (fun (st : DfsState) node =>
          if st.visited.contains node then st
          else dfsStep edges (dfsFuelBound edges) node [] st) st).stack = [] ∧
      (∀ k ∈ (nodes.foldl
        (fun (st : DfsState) node =>
          if st.visited.contains node then st
          else dfsStep edges (dfsFuelBound edges) node [] st) st).cyclicEdges,
        SoundKey edges k)) := by
    intro nodes
    induction nodes with
    | nil =>
      intro st h1 h2
      exact ⟨h1, h2⟩
    | cons node rest ih =>
      intro st h1 h2
      simp only [List.foldl_cons]
      by_cases hv : st.visited.contains node
      · rw [if_pos hv]
        exact ih st h1 h2
      · rw [if_neg hv]
        rcases dfsStep_invariant edges (dfsFuelBound edges) node [] st h1 (by simp)
            (by simp) (List.chain'_singleton _) h2 with ⟨hs, _, hsd⟩
        exact ih _ (hs.trans h1) hsd
  intro k hk
  exact ((key (edges.map (fun e => e.1)) {} rfl (by simp [DfsState.cyclicEdges])).2) k hk

/-! ## Claim C2 -/

/-- C2 counterexample: the claim says identifyCyclicEdges returns exactly the
set of edge keys participating in at least one directed cycle. On the edge map
A -> {B, C}, B -> {C}, C -> {A}, the edge A -> C lies on the cycle A -> C -> A,
yet its key is absent from the returned set: the DFS skips the already-visited
node C when it reaches it along the second out-edge of A. -/
theorem identifyCyclicEdges_misses_cyclic_edge :
    OnCycle graphTriangle "A" "C" ∧
      edgeKey "A" "C" ∉ identifyCyclicEdges graphTriangle := by
  constructor
  · exact ⟨by decide, Relation.ReflTransGen.single (by decide)⟩
  · decide

/-- C2 (amended): every edge key returned by identifyCyclicEdges is of the form
from -> to for an edge of the input EdgeMap that participates in at least one
directed cycle (the set may omit some cyclic edges); and for a workspace whose
internal graph has edges A -> B and B -> A, the assembled report has
A.cyclicDeps == ["B"] and B.cyclicDeps == ["A"]. -/
theorem identifyCyclicEdges_sound_and_two_cycle_scenario :
    (∀ (edges : List (String × List String)) (k : String),
      k ∈ identifyCyclicEdges edges → ∃ a b, k = edgeKey a b ∧ OnCycle edges a b) ∧
    (generateDependencyReport wsAB).toOption.map
        (fun r => r.1.packages.map (fun p => (p.name, p.cyclicDeps))) =
      some [("A", ["B"]), ("B", ["A"])] := by
  constructor
  · intro edges k hk
    exact identifyCyclicEdges_soundKeys edges k hk
  · decide

/-- C2 witness: the soundness half applied to the concrete two-node cycle. -/
theorem identifyCyclicEdges_sound_witness :
    ∃ a b, edgeKey "A" "B" = edgeKey a b ∧ OnCycle graphAB a b :=
  identifyCyclicEdges_sound_and_two_cycle_scenario.1 graphAB (edgeKey "A" "B") (by decide)

/-! ## Claim C10 -/

/-- C10: every edge key in the set returned by identifyCyclicEdges corresponds
to an edge actually present in the input EdgeMap: the key is from -> to with
to a member of the edge set of from; the detector never fabricates a key for a
pair of nodes with no direct edge. -/
theorem identifyCyclicEdges_keys_are_real_edges :
    ∀ (edges : List (String × List String)) (k : String),
      k ∈ identifyCyclicEdges edges →
      ∃ a b, k = edgeKey a b ∧ b ∈ edgesLookup edges a := by
  intro edges k hk
  rcases identifyCyclicEdges_soundKeys edges k hk with ⟨a, b, hkey, hedge, _⟩
  exact ⟨a, b, hkey, hedge⟩

/-- C10 witness: applied to the concrete two-node cycle. -/
theorem identifyCyclicEdges_keys_are_real_edges_witness :
    ∃ a b, edgeKey "B" "A" = edgeKey a b ∧ b ∈ edgesLookup graphAB a :=
  identifyCyclicEdges_keys_are_real_edges graphAB (edgeKey "B" "A") (by decide)

/-! ## Claim C3 -/

/-- C3: for every package p in every report composed from single-file-analyzer
results, p.name is never an element of p.dependencies: processImport discards
an import whose resolved target package equals the importing file's owning
package on both the alias-resolution path and the direct name-resolution path,
so no self edge is ever aggregated or assembled. -/
theorem report_no_self_loops :
    ∀ (context : ReportAssemblyContext) (cache : List (String × FileAnalysis)),
      (∀ e ∈ cache, ∃ env events c, e.2 = analyzeSourceFile env events e.1 c) →
      ∀ p ∈ (composeCurrentReport context cache).packages, p.name ∉ p.dependencies := by
  intro context cache hcache p hp hmem
  unfold composeCurrentReport composeDependencyReport at hp
  simp only [assembleReportPackages, List.mem_map] at hp
  rcases hp with ⟨pkgInfo, hpkg, rfl⟩
  rw [assemblePackage_name, assemblePackage_dependencies] at hmem
  have hedge := containerFilteredDeps_subset context.pkgDirByName _ pkgInfo hmem
  rcases edges_buildAgg hedge with ⟨a, ha, hname, hdep⟩
  rcases List.mem_map.mp ha with ⟨e, he, rfl⟩
  rcases hcache e he with ⟨env, events, c, heq⟩
  rw [heq] at hname hdep
  exact analyzeSourceFile_no_self hname hdep

/-- C3 witness: the report composed from a concrete analyzer cache, at its
first package. -/
theorem report_no_self_loops_witness :
    ((composeCurrentReport ctxAB cacheAB).packages.headD default).name ∉
      ((composeCurrentReport ctxAB cacheAB).packages.headD default).dependencies := by
  apply report_no_self_loops ctxAB cacheAB
  · intro e he
    rw [cacheAB, List.mem_singleton] at he
    subst he
    exact ⟨envAB, wsAB.events, some "uses bee from B", rfl⟩
  · decide

/-! ## Claim C4 -/

/-- C4: in every assembled report package, declaredDeps and undeclaredDeps
partition dependencies: their union equals dependencies as sets, their
intersection is empty, and membership in declaredDeps is decided by the union
of the declared production and development dependency names, falling back to
the undifferentiated declared set when both are empty (the set computed by
declaredDependencyNames). -/
theorem declared_undeclared_partition :
    ∀ (context : ReportAssemblyContext) (data : GraphData) (p : ReportPackage),
      p ∈ assembleReportPackages context data →
      (∀ x, x ∈ p.dependencies ↔ x ∈ p.declaredDeps ∨ x ∈ p.undeclaredDeps) ∧
      (∀ x, ¬(x ∈ p.declaredDeps ∧ x ∈ p.undeclaredDeps)) ∧
      (∃ pkgInfo ∈ context.pkgInfoList, p = assemblePackage context data pkgInfo ∧
        (∀ x, x ∈ p.declaredDeps ↔
          x ∈ p.dependencies ∧ x ∈ declaredDependencyNames pkgInfo) ∧
        (∀ x, x ∈ p.undeclaredDeps ↔
          x ∈ p.dependencies ∧ x ∉ declaredDependencyNames pkgInfo)) := by
  intro context data p hp
  simp only [assembleReportPackages, List.mem_map] at hp
  rcases hp with ⟨pkgInfo, hpkg, rfl⟩
  have hdecl : ∀ x, x ∈ (assemblePackage context data pkgInfo).declaredDeps ↔
      x ∈ (assemblePackage context data pkgInfo).dependencies ∧
        x ∈ declaredDependencyNames pkgInfo := by
    intro x
    rw [assemblePackage_declaredDeps, assemblePackage_dependencies, List.mem_filter]
    simp [contains_iff_mem]
  have hundecl : ∀ x, x ∈ (assemblePackage context data pkgInfo).undeclaredDeps ↔
      x ∈ (assemblePackage context data pkgInfo).dependencies ∧
        x ∉ declaredDependencyNames pkgInfo := by
    intro x
    rw [assemblePackage_undeclaredDeps, assemblePackage_dependencies, List.mem_filter]
    simp [contains_iff_mem]
  refine ⟨?_, ?_, pkgInfo, hpkg, rfl, hdecl, hundecl⟩
  · intro x
    rw [hdecl x, hundecl x]
    by_cases hx : x ∈ declaredDependencyNames pkgInfo
    · simp [hx]
    · simp [hx]
  · intro x ⟨h1, h2⟩
    rw [hdecl x] at h1
    rw [hundecl x] at h2
    exact h2.2 h1.2

/-- C4 witness: the partition at a concrete assembled package and dependency
name. -/
theorem declared_undeclared_partition_witness :
    "B" ∈ (assemblePackage ctxAB gdataAB pkgA).dependencies ↔
      "B" ∈ (assemblePackage ctxAB gdataAB pkgA).declaredDeps ∨
        "B" ∈ (assemblePackage ctxAB gdataAB pkgA).undeclaredDeps :=
  (declared_undeclared_partition ctxAB gdataAB (assemblePackage ctxAB gdataAB pkgA)
    (by decide)).1 "B"

/-! ## Claim C6 -/

/-- C6: in every assembled package, the dependencies list never contains a
workspace package whose directory (per the package-directory map, with a
trailing slash appended) lies inside or equals the owner's own directory: such
edge targets are dropped by the container filter, and declaredDeps,
undeclaredDeps, cyclicDeps and dependencyDetails are all derived from the
already-filtered list. -/
theorem container_filtering_drops_nested_targets
    (context : ReportAssemblyContext) (data : GraphData) (pkgInfo : PkgInfo) :
    (∀ dep ∈ (assemblePackage context data pkgInfo).dependencies,
      ∀ depDir, assocFind context.pkgDirByName dep = some depDir →
        strStartsWith (withTrailingSlash depDir) (withTrailingSlash pkgInfo.dir) = false) ∧
    (∀ x ∈ (assemblePackage context data pkgInfo).declaredDeps,
      x ∈ (assemblePackage context data pkgInfo).dependencies) ∧
    (∀ x ∈ (assemblePackage context data pkgInfo).undeclaredDeps,
      x ∈ (assemblePackage context data pkgInfo).dependencies) ∧
    (∀ x ∈ (assemblePackage context data pkgInfo).cyclicDeps,
      x ∈ (assemblePackage context data pkgInfo).dependencies) ∧
    (assemblePackage context data pkgInfo).dependencyDetails.map (fun d => d.name) =
      (assemblePackage context data pkgInfo).dependencies := by
  refine ⟨?_, ?_, ?_, ?_, ?_⟩
  · intro dep hdep depDir hfind
    rw [assemblePackage_dependencies] at hdep
    unfold containerFilteredDeps at hdep
    have hpred := List.of_mem_filter hdep
    rw [hfind] at hpred
    simpa using hpred
  · intro x hx
    rw [assemblePackage_declaredDeps] at hx
    rw [assemblePackage_dependencies]
    exact List.mem_of_mem_filter hx
  · intro x hx
    rw [assemblePackage_undeclaredDeps] at hx
    rw [assemblePackage_dependencies]
    exact List.mem_of_mem_filter hx
  · intro x hx
    rw [assemblePackage_cyclicDeps] at hx
    rw [assemblePackage_dependencies]
    exact List.mem_of_mem_filter hx
  · show ((containerFilteredDeps context.pkgDirByName data.edges pkgInfo).map
      (dependencyDetailFor context
        ((assocFind data.dependencyOrigins pkgInfo.name).getD []) pkgInfo.dir)).map
      (fun d => d.name) = containerFilteredDeps context.pkgDirByName data.edges pkgInfo
    rw [List.map_map]
    exact List.map_id ..

/-- C6 witness: a parent package P with nested child Q keeps only the sibling
dependency B, and the nesting test is false for B's directory. -/
theorem container_filtering_drops_nested_targets_witness :
    strStartsWith (withTrailingSlash "/ws/b") (withTrailingSlash pkgParent.dir) = false :=
  (container_filtering_drops_nested_targets ctxPC gdataPC pkgParent).1 "B" (by decide)
    "/ws/b" (by decide)

/-! ## Claim C7 -/

theorem mem_externalDeps_mem_classify {context : ReportAssemblyContext} {data : GraphData}
    {pkgInfo : PkgInfo} {d : PackageExternalDependency}
    (hd : d ∈ (assemblePackage context data pkgInfo).externalDependencies) :
    d ∈ classifyExternalDependencies context pkgInfo
      ((assocFind data.externalReferenceCount pkgInfo.name).getD []) := by
  rw [assemblePackage_externalDependencies] at hd
  unfold filterExternalsForContainer at hd
  split at hd
  · exact List.mem_of_mem_filter hd
  · exact hd

theorem classify_isUsed {context : ReportAssemblyContext} {pkgInfo : PkgInfo}
    {usage : List (String × Nat)} {d : PackageExternalDependency}
    (hd : d ∈ classifyExternalDependencies context pkgInfo usage) :
    d.isUsed = (decide (0 < d.usageCount) || d.isToolingOnly) := by
  unfold classifyExternalDependencies at hd
  simp only [List.mem_map] at hd
  rcases hd with ⟨nm, _, rfl⟩
  rfl

theorem classify_name_inj {context : ReportAssemblyContext} {pkgInfo : PkgInfo}
    {usage : List (String × Nat)} {d d' : PackageExternalDependency}
    (hd : d ∈ classifyExternalDependencies context pkgInfo usage)
    (hd' : d' ∈ classifyExternalDependencies context pkgInfo usage)
    (hname : d'.name = d.name) : d' = d := by
  unfold classifyExternalDependencies at hd hd'
  simp only [List.mem_map] at hd hd'
  rcases hd with ⟨nm, _, rfl⟩
  rcases hd' with ⟨nm', _, rfl⟩
  have heq : nm' = nm := hname
  subst heq
  rfl

/-- C7: for every assembled package, undeclaredExternalDeps is exactly the set
of names of container-filtered external records with isUsed true and
isDeclared false, and unusedExternalDeps exactly those with isDeclared true,
isUsed false, isLikelyTypePackage false and isToolingOnly false; a record that
is declared with positive usage count is never listed unused; and the package
D that imports the undeclared name axios reports undeclaredExternalDeps ==
["axios"]. -/
theorem external_dependency_classification
    (context : ReportAssemblyContext) (data : GraphData) (pkgInfo : PkgInfo) :
    (∀ x, x ∈ (assemblePackage context data pkgInfo).undeclaredExternalDeps ↔
      ∃ d ∈ (assemblePackage context data pkgInfo).externalDependencies,
        d.name = x ∧ d.isUsed = true ∧ d.isDeclared = false) ∧
    (∀ x, x ∈ (assemblePackage context data pkgInfo).unusedExternalDeps ↔
      ∃ d ∈ (assemblePackage context data pkgInfo).externalDependencies,
        d.name = x ∧ d.isDeclared = true ∧ d.isUsed = false ∧
          d.isLikelyTypePackage = false ∧ d.isToolingOnly = false) ∧
    (∀ d ∈ (assemblePackage context data pkgInfo).externalDependencies,
      d.isDeclared = true → 0 < d.usageCount →
        d.name ∉ (assemblePackage context data pkgInfo).unusedExternalDeps) ∧
    (generateDependencyReport wsD).toOption.map
        (fun r => r.1.packages.map (fun p => p.undeclaredExternalDeps)) =
      some [["axios"]] := by
  refine ⟨?_, ?_, ?_, by decide⟩
  · intro x
    rw [assemblePackage_undeclaredExternalDeps]
    simp only [List.mem_map, List.mem_filter]
    constructor
    · rintro ⟨d, ⟨hd, hflags⟩, rfl⟩
      rw [Bool.and_eq_true, Bool.not_eq_true'] at hflags
      exact ⟨d, hd, rfl, hflags.1, hflags.2⟩
    · rintro ⟨d, hd, rfl, hu, hdec⟩
      exact ⟨d, ⟨hd, by rw [hu, hdec]; rfl⟩, rfl⟩
  · intro x
    rw [assemblePackage_unusedExternalDeps]
    simp only [List.mem_map, List.mem_filter]
    constructor
    · rintro ⟨d, ⟨hd, hflags⟩, rfl⟩
      simp only [Bool.and_eq_true, Bool.not_eq_true'] at hflags
      exact ⟨d, hd, rfl, hflags.1.1.1, hflags.1.1.2, hflags.1.2, hflags.2⟩
    · rintro ⟨d, hd, rfl, h1, h2, h3, h4⟩
      exact ⟨d, ⟨hd, by rw [h1, h2, h3, h4]; rfl⟩, rfl⟩
  · intro d hd hdecl husage hmem
    rw [assemblePackage_unusedExternalDeps] at hmem
    simp only [List.mem_map, List.mem_filter] at hmem
    rcases hmem with ⟨d', ⟨hd', hflags⟩, hname⟩
    have hdd : d' = d :=
      classify_name_inj (mem_externalDeps_mem_classify hd)
        (mem_externalDeps_mem_classify hd') hname
    subst hdd
    simp only [Bool.and_eq_true, Bool.not_eq_true'] at hflags
    have h := classify_isUsed (mem_externalDeps_mem_classify hd)
    rw [hflags.1.1.2] at h
    have hpos : decide (0 < d'.usageCount) = true := by simpa using husage
    rw [hpos] at h
    simp at h

/-- C7 witness: the declared and once-used name lodash of package C is not in
unusedExternalDeps. -/
theorem external_dependency_classification_witness :
    ((assemblePackage ctxC gdataC pkgC).externalDependencies.headD default).name ∉
      (assemblePackage ctxC gdataC pkgC).unusedExternalDeps :=
  (external_dependency_classification ctxC gdataC pkgC).2.2.1
    ((assemblePackage ctxC gdataC pkgC).externalDependencies.headD default)
    (by decide) (by decide) (by decide)

/-! ## Claim C5 -/

theorem recordExternal_internalCounts (st : AnalysisState) (s : String) :
    (recordExternalReference st s).internalReferenceCounts = st.internalReferenceCounts := by
  simp only [recordExternalReference]
  split <;> rfl

theorem processImport_typeonly_preserves {env : AnalyzerEnv} {f fromPkg : String}
    {d : Bool} {st : AnalysisState} {ev : ImportEvent}
    (h : (ev.isTypeOnly || d) = true) :
    (processImport env f fromPkg d st ev).internalDependencies = st.internalDependencies ∧
    (processImport env f fromPkg d st ev).internalReferenceCounts =
      st.internalReferenceCounts := by
  simp only [processImport]
  repeat' split
  all_goals
    first
      | exact ⟨rfl, rfl⟩
      | (rw [recordExternal_internalDeps, recordExternal_internalCounts]; exact ⟨rfl, rfl⟩)
      | simp_all

/-- C5 counterexample: the claim counts a declaration with every named binding
type-only as marked entirely type-only; but for an import that also carries a
default (value) binding — modelled by a clause with hasName true and a single
type-only named binding — the marking is false and processing the import of
workspace package B from a file of package A does record the internal edge B. -/
theorem type_only_gloss_counterexample :
    (clauseDefaultAndTypeOnly.namedImports.getD []).all (fun el => el.isTypeOnly) = true ∧
    isTypeOnlyImportDeclaration (some clauseDefaultAndTypeOnly) = false ∧
    (processImport envAB "/ws/a/index.ts" "A" false {}
      (eventOfImportDecl (some clauseDefaultAndTypeOnly) "B")).internalDependencies =
      ["B"] := by
  refine ⟨by decide, by decide, by decide⟩

/-- C5 (amended): an import declaration whose computed type-only mark is true
(the whole declaration is type-only, or it has at least one named binding,
every named binding is type-only, and there is no default import binding), an
export declaration whose mark is true (type-only as a whole, or with at least
one named binding, all type-only), and every import processed in a declaration
(.d.ts-style) file, never records an internal dependency edge: the internal
dependency set and internal reference counts are unchanged. -/
theorem type_only_never_creates_internal_edge :
    (∀ (env : AnalyzerEnv) (f fromPkg : String) (d : Bool) (st : AnalysisState)
      (clause : Option ImportClauseModel) (spec : String),
      isTypeOnlyImportDeclaration clause = true →
      (processImport env f fromPkg d st
        (eventOfImportDecl clause spec)).internalDependencies = st.internalDependencies ∧
      (processImport env f fromPkg d st
        (eventOfImportDecl clause spec)).internalReferenceCounts =
        st.internalReferenceCounts) ∧
    (∀ (env : AnalyzerEnv) (f fromPkg : String) (d : Bool) (st : AnalysisState)
      (isTypeOnly : Bool) (namedExports : Option (List ImportSpecifierModel))
      (spec : String),
      isTypeOnlyExportDeclaration isTypeOnly namedExports = true →
      (processImport env f fromPkg d st
        (eventOfExportDecl isTypeOnly namedExports spec)).internalDependencies =
        st.internalDependencies ∧
      (processImport env f fromPkg d st
        (eventOfExportDecl isTypeOnly namedExports spec)).internalReferenceCounts =
        st.internalReferenceCounts) ∧
    (∀ (env : AnalyzerEnv) (f fromPkg : String) (st : AnalysisState) (ev : ImportEvent),
      (processImport env f fromPkg true st ev).internalDependencies =
        st.internalDependencies ∧
      (processImport env f fromPkg true st ev).internalReferenceCounts =
        st.internalReferenceCounts) := by
  refine ⟨?_, ?_, ?_⟩
  · intro env f fromPkg d st clause spec hmark
    exact processImport_typeonly_preserves (by simp [eventOfImportDecl, hmark])
  · intro env f fromPkg d st isTypeOnly namedExports spec hmark
    exact processImport_typeonly_preserves (by simp [eventOfExportDecl, hmark])
  · intro env f fromPkg st ev
    exact processImport_typeonly_preserves (by simp)

/-- C5 witness: a fully type-only import clause leaves the empty state's
internal dependency data unchanged. -/
theorem type_only_never_creates_internal_edge_witness :
    (processImport envAB "/ws/a/index.ts" "A" false {}
      (eventOfImportDecl
        (some { isTypeOnly := true, hasName := false, namedImports := none })
        "B")).internalDependencies = AnalysisState.internalDependencies {} ∧
    (processImport envAB "/ws/a/index.ts" "A" false {}
      (eventOfImportDecl
        (some { isTypeOnly := true, hasName := false, namedImports := none })
        "B")).internalReferenceCounts = AnalysisState.internalReferenceCounts {} :=
  type_only_never_creates_internal_edge.1 envAB "/ws/a/index.ts" "A" false {}
    (some { isTypeOnly := true, hasName := false, namedImports := none }) "B" (by decide)

/-! ## Claim C8 -/

theorem mem_normalizeChangedFiles {l : List String} {x : String} :
    x ∈ normalizeChangedFiles l ↔ x ∈ l ∧ x ≠ "" := by
  unfold normalizeChangedFiles
  rw [mem_foldl_addUnique]
  simp [List.mem_filter]

theorem collectUpdates_none_of_critical {W : Workspace} {l : List String}
    (h : ∃ c ∈ l, requiresFullRebuildForPath c = true) : collectUpdates W l = none := by
  induction l with
  | nil => simp at h
  | cons p rest ih =>
    rcases h with ⟨c, hc, hcrit⟩
    unfold collectUpdates
    by_cases hp : requiresFullRebuildForPath p = true
    · rw [if_pos hp]
    · rw [if_neg hp]
      rcases List.mem_cons.mp hc with rfl | hc'
      · exact absurd hcrit hp
      · rw [ih ⟨c, hc', hcrit⟩]
        split <;> rfl

/-- C8: in the ready state, a buildReport call whose non-empty changedFiles
batch contains a path matching a critical pattern performs a full rebuild —
the result is the forced-full-rebuild result and does not depend on the rest
of the batch after the critical path — even though a package manifest is not a
recognized source file. -/
theorem critical_change_forces_full_rebuild
    (W : Workspace) (S : BuilderState) (pre post : List String) (c : String)
    (hS : S.initialized = true)
    (hcrit : requiresFullRebuildForPath c = true)
    (hpkgs : W.packages.isEmpty = false) :
    buildReport W S { changedFiles := pre ++ c :: post } =
      buildReport W S { changedFiles := pre ++ c :: post, forceFullRebuild := true } ∧
    buildReport W S { changedFiles := pre ++ c :: post } =
      Except.ok (finishCompose W (rebuiltState W)) ∧
    isSourceFile "package.json" = false ∧
    requiresFullRebuildForPath "package.json" = true := by
  have hcne : c ≠ "" := by
    intro hc
    rw [hc] at hcrit
    exact absurd hcrit (by decide)
  have hcmem : c ∈ normalizeChangedFiles (pre ++ c :: post) :=
    mem_normalizeChangedFiles.mpr ⟨by simp, hcne⟩
  have hfull : performFullRebuild W = Except.ok (rebuiltState W) := by
    unfold performFullRebuild
    rw [hpkgs]
    rfl
  have happly : applyChanges W S (normalizeChangedFiles (pre ++ c :: post)) =
      Except.ok (true, rebuiltState W) := by
    unfold applyChanges
    rw [if_neg (by simp [List.isEmpty_iff, List.ne_nil_of_mem hcmem]),
      collectUpdates_none_of_critical ⟨c, hcmem, hcrit⟩, hfull]
    rfl
  have hmain : buildReport W S { changedFiles := pre ++ c :: post } =
      Except.ok (finishCompose W (rebuiltState W)) := by
    unfold buildReport
    rw [hS]
    simp only [Bool.not_true, Bool.false_or]
    rw [if_neg (by simp)]
    rw [if_pos (List.length_pos.mpr (List.ne_nil_of_mem hcmem)), happly]
    rfl
  refine ⟨?_, hmain, by decide, by decide⟩
  rw [hmain]
  unfold buildReport
  simp only [Bool.or_true, if_pos]
  rw [hfull]
  rfl

/-- C8 witness: editing a package manifest in a ready builder over the
two-package workspace forces the full rebuild. -/
theorem critical_change_forces_full_rebuild_witness :
    buildReport wsAB readyState { changedFiles := [] ++ "/ws/a/package.json" :: [] } =
      Except.ok (finishCompose wsAB (rebuiltState wsAB)) :=
  (critical_change_forces_full_rebuild wsAB readyState [] [] "/ws/a/package.json"
    (by decide) (by decide) (by decide)).2.1

/-! ## Claim C9 -/

/-- C9: a full rebuild raises an error exactly when zero packages are
discovered (with the message naming the root); with at least one package it
returns normally regardless of per-file read failures, and a file whose read
fails contributes the empty analysis in which the owning package is still
identified and all reference data is empty. -/
theorem full_rebuild_error_iff_no_packages :
    (∀ W : Workspace, W.packages = [] →
      performFullRebuild W = Except.error ("No packages found in " ++ W.rootDir)) ∧
    (∀ W : Workspace, W.packages ≠ [] →
      performFullRebuild W = Except.ok (rebuiltState W)) ∧
    (∀ (env : AnalyzerEnv) (events : String → String → List ImportEvent) (f : String),
      analyzeSourceFile env events f none =
        emptyAnalysis f (resolvePackageForFile f env.pkgDirMap)) := by
  refine ⟨?_, ?_, ?_⟩
  · intro W hW
    unfold performFullRebuild
    rw [if_pos (by simp [hW])]
  · intro W hW
    unfold performFullRebuild
    rw [if_neg (by simp [hW])]
  · intro env events f
    unfold analyzeSourceFile
    rcases hp : resolvePackageForFile f env.pkgDirMap with _ | fp <;> rfl

/-- C9 witness: the empty workspace errors with the message naming the root,
and a workspace whose only file is unreadable still builds. -/
theorem full_rebuild_error_iff_no_packages_witness :
    performFullRebuild wsEmpty = Except.error ("No packages found in " ++ wsEmpty.rootDir) ∧
    performFullRebuild wsUnreadable = Except.ok (rebuiltState wsUnreadable) :=
  ⟨full_rebuild_error_iff_no_packages.1 wsEmpty rfl,
    full_rebuild_error_iff_no_packages.2.1 wsUnreadable (by decide)⟩

/-! ## Lemmas for the incremental builder (claim C1) -/

theorem analyzeSourceFile_pkgName (env : AnalyzerEnv)
    (events : String → String → List ImportEvent) (f : String) (c : Option String) :
    (analyzeSourceFile env events f c).pkgName = resolvePackageForFile f env.pkgDirMap := by
  unfold analyzeSourceFile
  rcases hp : resolvePackageForFile f env.pkgDirMap with _ | fp
  · rfl
  · rcases c with _ | text <;> rfl

theorem analyzeSourceFile_hash (env : AnalyzerEnv)
    (events : String → String → List ImportEvent) (f : String) (c : Option String)
    {fp : String} (hp : resolvePackageForFile f env.pkgDirMap = some fp) :
    (analyzeSourceFile env events f c).hash = c := by
  unfold analyzeSourceFile
  rw [hp]
  rcases c with _ | text <;> rfl

theorem assocSet_assocSet {α : Type} (k : String) (v w : α) (m : List (String × α)) :
    assocSet k v (assocSet k w m) = assocSet k v m := by
  induction m with
  | nil => simp [assocSet]
  | cons e rest ih =>
    by_cases he : e.1 = k
    · simp [assocSet, he]
    · simp [assocSet, he, ih]

theorem assocHas_assocSet {α : Type} {m : List (String × α)} {f : String}
    (h : assocHas m f = true) (g : String) (b : α) :
    assocHas (assocSet g b m) f = true := by
  unfold assocHas at h ⊢
  by_cases hg : f = g
  · subst hg
    rw [assocFind_set_self]
    rfl
  · rw [assocFind_set_other _ _ hg]
    exact h

theorem assocSet_comm {α : Type} {m : List (String × α)} {f g : String} (a b : α)
    (hhas : assocHas m f = true) (hne : g ≠ f) :
    assocSet g b (assocSet f a m) = assocSet f a (assocSet g b m) := by
  induction m with
  | nil => simp [assocHas, assocFind] at hhas
  | cons e rest ih =>
    by_cases hef : e.1 = f
    · have heg : ¬e.1 = g := fun hc => hne (hc.symm.trans hef)
      simp [assocSet, hef, heg, fun hc => hne (Eq.symm hc), Ne.symm hne]
    · by_cases heg : e.1 = g
      · simp [assocSet, hef, heg, hne, fun hc => hne (Eq.symm hc), Ne.symm hne]
      · have hhas' : assocHas rest f = true := by
          unfold assocHas at hhas ⊢
          rw [show assocFind (e :: rest) f = if e.1 = f then some e.2 else assocFind rest f
            from rfl, if_neg hef] at hhas
          exact hhas
        simp [assocSet, hef, heg, ih hhas']

theorem scanFold_congr {analyze1 analyze0 : String → FileAnalysis} {l : List String}
    (h : ∀ g ∈ l, analyze1 g = analyze0 g) (m : List (String × FileAnalysis)) :
    l.foldl (scanStep analyze1) m = l.foldl (scanStep analyze0) m := by
  induction l generalizing m with
  | nil => rfl
  | cons g rest ih =>
    simp only [List.foldl_cons]
    rw [show scanStep analyze1 m g = scanStep analyze0 m g by
      unfold scanStep
      rw [h g (List.mem_cons_self ..)]]
    exact ih (fun x hx => h x (List.mem_cons_of_mem _ hx)) _

theorem scanFold_find (analyze : String → FileAnalysis) (l : List String)
    (m : List (String × FileAnalysis)) (g : String) :
    assocFind (l.foldl (scanStep analyze) m) g =
      if g ∈ l ∧ (analyze g).pkgName.isSome = true then some (analyze g)
      else assocFind m g := by
  induction l generalizing m with
  | nil => simp
  | cons x rest ih =>
    simp only [List.foldl_cons]
    rw [ih]
    by_cases hrest : g ∈ rest ∧ (analyze g).pkgName.isSome = true
    · rw [if_pos hrest, if_pos ⟨List.mem_cons_of_mem _ hrest.1, hrest.2⟩]
    · rw [if_neg hrest]
      by_cases hx : x = g
      · subst hx
        by_cases hsome : (analyze x).pkgName.isSome = true
        · rw [if_pos ⟨List.mem_cons_self .., hsome⟩]
          simp only [scanStep]
          rw [if_pos hsome, assocFind_set_self]
        · rw [if_neg (by
            intro hc
            exact hsome hc.2)]
          simp only [scanStep]
          rw [if_neg hsome]
      · rw [if_neg (by
          intro hc
          rcases List.mem_cons.mp hc.1 with h1 | h1
          · exact hx h1.symm
          · exact hrest ⟨h1, hc.2⟩)]
        simp only [scanStep]
        split
        · rw [assocFind_set_other _ _ (fun hc => hx hc.symm)]
        · rfl

theorem scanFold_set {analyze1 analyze0 : String → FileAnalysis} {l : List String}
    {f : String} (hf : f ∉ l) (h : ∀ g ∈ l, analyze1 g = analyze0 g)
    (m : List (String × FileAnalysis)) (hhas : assocHas m f = true) :
    l.foldl (scanStep analyze1) (assocSet f (analyze1 f) m) =
      assocSet f (analyze1 f) (l.foldl (scanStep analyze0) m) := by
  induction l generalizing m with
  | nil => rfl
  | cons g rest ih =>
    have hgf : g ≠ f := fun hc => hf (hc ▸ List.mem_cons_self ..)
    have hfr : f ∉ rest := fun hc => hf (List.mem_cons_of_mem _ hc)
    simp only [List.foldl_cons]
    have hstep : scanStep analyze1 (assocSet f (analyze1 f) m) g =
        assocSet f (analyze1 f) (scanStep analyze0 m g) := by
      simp only [scanStep]
      rw [h g (List.mem_cons_self ..)]
      split
      · exact assocSet_comm _ _ hhas hgf
      · rfl
    rw [hstep]
    refine ih hfr (fun x hx => h x (List.mem_cons_of_mem _ hx)) _ ?_
    simp only [scanStep]
    split
    · exact assocHas_assocSet hhas _ _
    · exact hhas

theorem analyzeSourceFile_pkgNone (env : AnalyzerEnv)
    (events : String → String → List ImportEvent) (f : String) (c : Option String)
    (hp : resolvePackageForFile f env.pkgDirMap = none) :
    analyzeSourceFile env events f c = emptyAnalysis f none := by
  unfold analyzeSourceFile
  rw [hp]

theorem buildReport_force (W : Workspace) (S : BuilderState) :
    buildReport W S { forceFullRebuild := true } =
      (performFullRebuild W).map (finishCompose W) := by
  unfold buildReport
  rw [if_pos (by simp)]

theorem performFullRebuild_eq (W : Workspace) :
    performFullRebuild W =
      if W.packages.isEmpty then Except.error ("No packages found in " ++ W.rootDir)
      else Except.ok (rebuiltState W) := rfl

theorem buildReport_force_ok {W : Workspace} (hW : W.packages.isEmpty = false)
    (S : BuilderState) :
    buildReport W S { forceFullRebuild := true } =
      Except.ok (finishCompose W (rebuiltState W)) := by
  rw [buildReport_force, performFullRebuild_eq, hW]
  rfl

theorem buildReport_changed (W : Workspace) (S : BuilderState) (paths : List String)
    (hS : S.initialized = true) (hlen : 0 < (normalizeChangedFiles paths).length) :
    buildReport W S { changedFiles := paths } =
      match applyChanges W S (normalizeChangedFiles paths) with
      | Except.error e => Except.error e
      | Except.ok (applied, S1) =>
        if !applied then
          match S1.lastReport with
          | some r => Except.ok (r, S1)
          | none => Except.ok (finishCompose W S1)
        else Except.ok (finishCompose W S1) := by
  unfold buildReport
  rw [hS]
  rw [if_neg (by simp), if_pos hlen]

theorem applyChanges_single_source {W : Workspace} {S : BuilderState} {f : String}
    (hcrit : requiresFullRebuildForPath f = false) (hsrc : isSourceFile f = true) :
    applyChanges W S [f] =
      Except.ok ((applyOneUpdate W S (S.fileAnalyses, false) (f, W.fileExists f)).2,
        { S with
          fileAnalyses :=
            (applyOneUpdate W S (S.fileAnalyses, false) (f, W.fileExists f)).1 }) := by
  unfold applyChanges
  rw [if_neg (by simp)]
  have hupd : collectUpdates W [f] = some [(f, W.fileExists f)] := by
    unfold collectUpdates
    rw [hcrit]
    simp [hsrc, collectUpdates]
  rw [hupd]
  rfl

theorem applyChanges_single_critical {W : Workspace} {S : BuilderState} {f : String}
    (hcrit : requiresFullRebuildForPath f = true) (hW : W.packages.isEmpty = false) :
    applyChanges W S [f] = Except.ok (true, rebuiltState W) := by
  unfold applyChanges
  rw [if_neg (by simp)]
  have hupd : collectUpdates W [f] = none := by
    unfold collectUpdates
    rw [hcrit]
    rfl
  rw [hupd, performFullRebuild_eq, hW]
  rfl

theorem scan_unchanged (W0 : Workspace) (f : String) (c : Option String)
    (h : ∀ g ∈ W0.files,
      analyzeSourceFile (stateEnv W0 (baseState W0)) W0.events g
          ((editFileContent W0 f c).content g) =
        analyzeSourceFile (stateEnv W0 (baseState W0)) W0.events g (W0.content g)) :
    scanWorkspaceFiles (editFileContent W0 f c)
        (stateEnv (editFileContent W0 f c) (baseState (editFileContent W0 f c))) =
      scanWorkspaceFiles W0 (stateEnv W0 (baseState W0)) := by
  unfold scanWorkspaceFiles
  exact scanFold_congr h _

theorem scan_after_edit (W0 : Workspace) (f : String) (c : Option String)
    (hnodup : W0.files.Nodup) (hf : f ∈ W0.files)
    (hsome : (resolvePackageForFile f
      (stateEnv W0 (baseState W0)).pkgDirMap).isSome = true) :
    scanWorkspaceFiles (editFileContent W0 f c)
        (stateEnv (editFileContent W0 f c) (baseState (editFileContent W0 f c))) =
      assocSet f (analyzeSourceFile (stateEnv W0 (baseState W0)) W0.events f c)
        (scanWorkspaceFiles W0 (stateEnv W0 (baseState W0))) := by
  rcases List.append_of_mem hf with ⟨l1, l2, hl⟩
  have hnodup2 : (l1 ++ f :: l2).Nodup := hl ▸ hnodup
  have hf1 : f ∉ l1 := by
    intro hc
    exact (List.nodup_append.mp hnodup2).2.2 hc (List.mem_cons_self ..)
  have hf2 : f ∉ l2 := by
    have := (List.nodup_append.mp hnodup2).2.1
    rw [List.nodup_cons] at this
    exact this.1
  have hcontentf : (editFileContent W0 f c).content f = c := if_pos rfl
  have hcongr : ∀ g ∈ W0.files, g ≠ f →
      analyzeSourceFile (stateEnv W0 (baseState W0)) W0.events g
          ((editFileContent W0 f c).content g) =
        analyzeSourceFile (stateEnv W0 (baseState W0)) W0.events g (W0.content g) := by
    intro g _ hgf
    rw [show (editFileContent W0 f c).content g = W0.content g from if_neg hgf]
  have hl1mem : ∀ g ∈ l1, g ∈ W0.files := by
    intro g hg
    rw [hl]
    exact List.mem_append_left _ hg
  have hl2mem : ∀ g ∈ l2, g ∈ W0.files := by
    intro g hg
    rw [hl]
    exact List.mem_append_right _ (List.mem_cons_of_mem _ hg)
  have hg1 : ∀ g ∈ l1, g ≠ f := fun g hg hc => hf1 (hc ▸ hg)
  have hg2 : ∀ g ∈ l2, g ≠ f := fun g hg hc => hf2 (hc ▸ hg)
  show (W0.files).foldl (scanStep (fun g =>
      analyzeSourceFile (stateEnv W0 (baseState W0)) W0.events g
        ((editFileContent W0 f c).content g))) [] = _
  have hsome1 : ((fun g => analyzeSourceFile (stateEnv W0 (baseState W0)) W0.events g
      ((editFileContent W0 f c).content g)) f).pkgName.isSome = true := by
    rw [analyzeSourceFile_pkgName]
    exact hsome
  have hsome0 : ((fun g => analyzeSourceFile (stateEnv W0 (baseState W0)) W0.events g
      (W0.content g)) f).pkgName.isSome = true := by
    rw [analyzeSourceFile_pkgName]
    exact hsome
  rw [hl, List.foldl_append,
    scanFold_congr (fun g hg => hcongr g (hl1mem g hg) (hg1 g hg)) ([]),
    List.foldl_cons,
    show ∀ m, scanStep (fun g =>
        analyzeSourceFile (stateEnv W0 (baseState W0)) W0.events g
          ((editFileContent W0 f c).content g)) m f =
      assocSet f (analyzeSourceFile (stateEnv W0 (baseState W0)) W0.events f
        ((editFileContent W0 f c).content f)) m from fun m => by
      simp only [scanStep]
      rw [if_pos hsome1],
    show assocSet f (analyzeSourceFile (stateEnv W0 (baseState W0)) W0.events f
        ((editFileContent W0 f c).content f))
        (List.foldl (scanStep (fun g =>
          analyzeSourceFile (stateEnv W0 (baseState W0)) W0.events g (W0.content g))) [] l1) =
      assocSet f (analyzeSourceFile (stateEnv W0 (baseState W0)) W0.events f
        ((editFileContent W0 f c).content f))
        (assocSet f (analyzeSourceFile (stateEnv W0 (baseState W0)) W0.events f
          (W0.content f))
        (List.foldl (scanStep (fun g =>
          analyzeSourceFile (stateEnv W0 (baseState W0)) W0.events g (W0.content g))) [] l1))
      from (assocSet_assocSet ..).symm,
    scanFold_set hf2 (fun g hg => hcongr g (hl2mem g hg) (hg2 g hg)) _
      (by unfold assocHas; rw [assocFind_set_self]; rfl)]
  rw [hcontentf]
  congr 1
  unfold scanWorkspaceFiles
  rw [hl, List.foldl_append, List.foldl_cons]
  congr 1
  simp only [scanStep]
  rw [if_pos hsome0]

theorem analyzeSourceFile_isSome (env : AnalyzerEnv)
    (events : String → String → List ImportEvent) (f : String) (c : Option String) :
    (analyzeSourceFile env events f c).pkgName.isSome =
      (resolvePackageForFile f env.pkgDirMap).isSome := by
  rw [analyzeSourceFile_pkgName]

theorem cache_find_eval (W0 : Workspace) (f : String) :
    assocFind (finishCompose W0 (rebuiltState W0)).2.fileAnalyses f =
      if f ∈ W0.files ∧
          (analyzeSourceFile (stateEnv W0 (baseState W0)) W0.events f
            (W0.content f)).pkgName.isSome = true then
        some (analyzeSourceFile (stateEnv W0 (baseState W0)) W0.events f (W0.content f))
      else none :=
  scanFold_find (fun g => analyzeSourceFile (stateEnv W0 (baseState W0)) W0.events g
    (W0.content g)) W0.files [] f

theorem applyOneUpdate_droppedFile (W0 : Workspace) (f : String) (c : Option String)
    (hP : resolvePackageForFile f (stateEnv W0 (baseState W0)).pkgDirMap = none) :
    applyOneUpdate (editFileContent W0 f c) (finishCompose W0 (rebuiltState W0)).2
        ((finishCompose W0 (rebuiltState W0)).2.fileAnalyses, false) (f, true) =
      ((finishCompose W0 (rebuiltState W0)).2.fileAnalyses, false) := by
  have hanalysis : analyzeSourceFile
      (stateEnv (editFileContent W0 f c) (finishCompose W0 (rebuiltState W0)).2)
      (editFileContent W0 f c).events f ((editFileContent W0 f c).content f) =
      analyzeSourceFile (stateEnv W0 (baseState W0)) W0.events f c := by
    rw [show (editFileContent W0 f c).content f = c from if_pos rfl]
    rfl
  have hhas : assocHas (finishCompose W0 (rebuiltState W0)).2.fileAnalyses f = false := by
    unfold assocHas
    rw [cache_find_eval, if_neg]
    · rfl
    · intro hc
      rw [analyzeSourceFile_isSome, hP] at hc
      exact absurd hc.2 (by decide)
  simp only [applyOneUpdate, hanalysis, if_true]
  rw [analyzeSourceFile_isSome, hP]
  simp [hhas]

theorem applyOneUpdate_sameHash (W0 : Workspace) (f : String) (c : Option String)
    (hfm : f ∈ W0.files) {fp : String}
    (hP : resolvePackageForFile f (stateEnv W0 (baseState W0)).pkgDirMap = some fp)
    (hcont : W0.content f = c) :
    applyOneUpdate (editFileContent W0 f c) (finishCompose W0 (rebuiltState W0)).2
        ((finishCompose W0 (rebuiltState W0)).2.fileAnalyses, false) (f, true) =
      ((finishCompose W0 (rebuiltState W0)).2.fileAnalyses, false) := by
  have hanalysis : analyzeSourceFile
      (stateEnv (editFileContent W0 f c) (finishCompose W0 (rebuiltState W0)).2)
      (editFileContent W0 f c).events f ((editFileContent W0 f c).content f) =
      analyzeSourceFile (stateEnv W0 (baseState W0)) W0.events f (W0.content f) := by
    rw [show (editFileContent W0 f c).content f = c from if_pos rfl, hcont]
    rfl
  simp only [applyOneUpdate, hanalysis, if_true]
  rw [analyzeSourceFile_isSome, hP]
  simp only [Option.isSome_some, if_true]
  rw [cache_find_eval, if_pos ⟨hfm, by rw [analyzeSourceFile_isSome, hP]; rfl⟩]
  simp

theorem applyOneUpdate_newHash (W0 : Workspace) (f : String) (c : Option String)
    (hfm : f ∈ W0.files) {fp : String}
    (hP : resolvePackageForFile f (stateEnv W0 (baseState W0)).pkgDirMap = some fp)
    (hcont : W0.content f ≠ c) :
    applyOneUpdate (editFileContent W0 f c) (finishCompose W0 (rebuiltState W0)).2
        ((finishCompose W0 (rebuiltState W0)).2.fileAnalyses, false) (f, true) =
      (assocSet f (analyzeSourceFile (stateEnv W0 (baseState W0)) W0.events f c)
        (finishCompose W0 (rebuiltState W0)).2.fileAnalyses, true) := by
  have hanalysis : analyzeSourceFile
      (stateEnv (editFileContent W0 f c) (finishCompose W0 (rebuiltState W0)).2)
      (editFileContent W0 f c).events f ((editFileContent W0 f c).content f) =
      analyzeSourceFile (stateEnv W0 (baseState W0)) W0.events f c := by
    rw [show (editFileContent W0 f c).content f = c from if_pos rfl]
    rfl
  have hhash : (analyzeSourceFile (stateEnv W0 (baseState W0)) W0.events f
        (W0.content f)).hash ≠
      (analyzeSourceFile (stateEnv W0 (baseState W0)) W0.events f c).hash := by
    rw [analyzeSourceFile_hash _ _ _ _ hP, analyzeSourceFile_hash _ _ _ _ hP]
    exact hcont
  simp only [applyOneUpdate, hanalysis, if_true]
  rw [analyzeSourceFile_isSome, hP]
  simp only [Option.isSome_some, if_true]
  rw [cache_find_eval, if_pos ⟨hfm, by rw [analyzeSourceFile_isSome, hP]; rfl⟩]
  simp [hhash]

/-! ## Claim C1 -/

/-- C1: for every workspace, the report produced by a forced full rebuild,
followed by editing exactly one workspace source file (which still exists
afterwards) and calling buildReport with that file as the only changed file,
has the same package entries as the report produced by a fresh full rebuild
of the edited workspace on a new builder. -/
theorem incremental_single_edit_equivalence
    (W0 : Workspace) (f : String) (newContent : Option String)
    (hnodup : W0.files.Nodup) (hf : f ∈ W0.files) (hsrc : isSourceFile f = true)
    (hexists : W0.fileExists f = true)
    (R0 : DependencyReport) (S0 : BuilderState)
    (h0 : buildReport W0 {} { forceFullRebuild := true } = Except.ok (R0, S0)) :
    ∃ R1 S1 R2 S2,
      buildReport (editFileContent W0 f newContent) S0 { changedFiles := [f] } =
        Except.ok (R1, S1) ∧
      buildReport (editFileContent W0 f newContent) {} { forceFullRebuild := true } =
        Except.ok (R2, S2) ∧
      R1.packages = R2.packages := by
  have hpkgs : W0.packages.isEmpty = false := by
    cases hW : W0.packages.isEmpty
    · rfl
    · rw [buildReport_force, performFullRebuild_eq, hW] at h0
      simp [Except.map] at h0
  have h0' : (Except.ok (R0, S0) : Except String (DependencyReport × BuilderState)) =
      Except.ok ((finishCompose W0 (rebuiltState W0)).1,
        (finishCompose W0 (rebuiltState W0)).2) := by
    rw [← h0, buildReport_force, performFullRebuild_eq, hpkgs]
    rfl
  simp only [Except.ok.injEq, Prod.mk.injEq] at h0'
  obtain ⟨hR0, hS0⟩ := h0'
  subst hR0
  subst hS0
  have hW1pkgs : (editFileContent W0 f newContent).packages.isEmpty = false := hpkgs
  have hforce1 : buildReport (editFileContent W0 f newContent) {}
        { forceFullRebuild := true } =
      Except.ok (finishCompose (editFileContent W0 f newContent)
        (rebuiltState (editFileContent W0 f newContent))) :=
    buildReport_force_ok hW1pkgs {}
  have hfne : f ≠ "" := by
    intro hc
    rw [hc] at hsrc
    exact absurd hsrc (by decide)
  have hnorm : normalizeChangedFiles [f] = [f] := by
    unfold normalizeChangedFiles
    simp [hfne, addUnique]
  have hchanged := buildReport_changed (editFileContent W0 f newContent)
    (finishCompose W0 (rebuiltState W0)).2 [f] rfl
    (by rw [hnorm]; simp)
  rw [hnorm] at hchanged
  cases hcrit : requiresFullRebuildForPath f with
  | true =>
    rw [applyChanges_single_critical hcrit hW1pkgs] at hchanged
    exact ⟨(finishCompose (editFileContent W0 f newContent)
        (rebuiltState (editFileContent W0 f newContent))).1,
      (finishCompose (editFileContent W0 f newContent)
        (rebuiltState (editFileContent W0 f newContent))).2,
      (finishCompose (editFileContent W0 f newContent)
        (rebuiltState (editFileContent W0 f newContent))).1,
      (finishCompose (editFileContent W0 f newContent)
        (rebuiltState (editFileContent W0 f newContent))).2,
      by rw [hchanged]; rfl, hforce1, rfl⟩
  | false =>
    rw [applyChanges_single_source hcrit hsrc] at hchanged
    rw [show (editFileContent W0 f newContent).fileExists f = true from hexists] at hchanged
    cases hP : resolvePackageForFile f (stateEnv W0 (baseState W0)).pkgDirMap with
    | none =>
      rw [applyOneUpdate_droppedFile W0 f newContent hP] at hchanged
      have hscan : scanWorkspaceFiles (editFileContent W0 f newContent)
          (stateEnv (editFileContent W0 f newContent)
            (baseState (editFileContent W0 f newContent))) =
          scanWorkspaceFiles W0 (stateEnv W0 (baseState W0)) := by
        apply scan_unchanged
        intro g _
        by_cases hgf : g = f
        · subst hgf
          rw [show (editFileContent W0 g newContent).content g = newContent from if_pos rfl,
            analyzeSourceFile_pkgNone _ _ _ _ hP, analyzeSourceFile_pkgNone _ _ _ _ hP]
        · rw [show (editFileContent W0 f newContent).content g = W0.content g from if_neg hgf]
      have hpkgeq : (finishCompose W0 (rebuiltState W0)).1.packages =
          (finishCompose (editFileContent W0 f newContent)
            (rebuiltState (editFileContent W0 f newContent))).1.packages := by
        show (composeCurrentReport (contextOf W0.rootDir W0.packages)
            (scanWorkspaceFiles W0 (stateEnv W0 (baseState W0)))).packages =
          (composeCurrentReport (contextOf W0.rootDir W0.packages)
            (scanWorkspaceFiles (editFileContent W0 f newContent)
              (stateEnv (editFileContent W0 f newContent)
                (baseState (editFileContent W0 f newContent))))).packages
        rw [hscan]
      exact ⟨(finishCompose W0 (rebuiltState W0)).1, (finishCompose W0 (rebuiltState W0)).2,
        (finishCompose (editFileContent W0 f newContent)
          (rebuiltState (editFileContent W0 f newContent))).1,
        (finishCompose (editFileContent W0 f newContent)
          (rebuiltState (editFileContent W0 f newContent))).2,
        by rw [hchanged]; rfl, hforce1, hpkgeq⟩
    | some fp =>
      by_cases hcont : W0.content f = newContent
      · rw [applyOneUpdate_sameHash W0 f newContent hf hP hcont] at hchanged
        have hscan : scanWorkspaceFiles (editFileContent W0 f newContent)
            (stateEnv (editFileContent W0 f newContent)
              (baseState (editFileContent W0 f newContent))) =
            scanWorkspaceFiles W0 (stateEnv W0 (baseState W0)) := by
          apply scan_unchanged
          intro g _
          by_cases hgf : g = f
          · subst hgf
            rw [show (editFileContent W0 g newContent).content g = newContent
              from if_pos rfl, hcont]
          · rw [show (editFileContent W0 f newContent).content g = W0.content g
              from if_neg hgf]
        have hpkgeq : (finishCompose W0 (rebuiltState W0)).1.packages =
            (finishCompose (editFileContent W0 f newContent)
              (rebuiltState (editFileContent W0 f newContent))).1.packages := by
          show (composeCurrentReport (contextOf W0.rootDir W0.packages)
              (scanWorkspaceFiles W0 (stateEnv W0 (baseState W0)))).packages =
            (composeCurrentReport (contextOf W0.rootDir W0.packages)
              (scanWorkspaceFiles (editFileContent W0 f newContent)
                (stateEnv (editFileContent W0 f newContent)
                  (baseState (editFileContent W0 f newContent))))).packages
          rw [hscan]
        exact ⟨(finishCompose W0 (rebuiltState W0)).1,
          (finishCompose W0 (rebuiltState W0)).2,
          (finishCompose (editFileContent W0 f newContent)
            (rebuiltState (editFileContent W0 f newContent))).1,
          (finishCompose (editFileContent W0 f newContent)
            (rebuiltState (editFileContent W0 f newContent))).2,
          by rw [hchanged]; rfl, hforce1, hpkgeq⟩
      · rw [applyOneUpdate_newHash W0 f newContent hf hP hcont] at hchanged
        have hscan : scanWorkspaceFiles (editFileContent W0 f newContent)
            (stateEnv (editFileContent W0 f newContent)
              (baseState (editFileContent W0 f newContent))) =
            assocSet f (analyzeSourceFile (stateEnv W0 (baseState W0)) W0.events f
              newContent)
              (scanWorkspaceFiles W0 (stateEnv W0 (baseState W0))) :=
          scan_after_edit W0 f newContent hnodup hf (by rw [hP]; rfl)
        have hpkgeq : (composeCurrentReport (contextOf W0.rootDir W0.packages)
            (assocSet f (analyzeSourceFile (stateEnv W0 (baseState W0)) W0.events f
              newContent)
              (scanWorkspaceFiles W0 (stateEnv W0 (baseState W0))))).packages =
            (finishCompose (editFileContent W0 f newContent)
              (rebuiltState (editFileContent W0 f newContent))).1.packages := by
          show _ =
            (composeCurrentReport (contextOf W0.rootDir W0.packages)
              (scanWorkspaceFiles (editFileContent W0 f newContent)
                (stateEnv (editFileContent W0 f newContent)
                  (baseState (editFileContent W0 f newContent))))).packages
          rw [hscan]
        exact ⟨composeCurrentReport (contextOf W0.rootDir W0.packages)
            (assocSet f (analyzeSourceFile (stateEnv W0 (baseState W0)) W0.events f
              newContent)
              (scanWorkspaceFiles W0 (stateEnv W0 (baseState W0)))),
          _,
          (finishCompose (editFileContent W0 f newContent)
            (rebuiltState (editFileContent W0 f newContent))).1,
          (finishCompose (editFileContent W0 f newContent)
            (rebuiltState (editFileContent W0 f newContent))).2,
          by rw [hchanged]; rfl, hforce1, hpkgeq⟩

/-- C1 witness: the equivalence applied to the concrete two-package workspace
with the file of package A edited. -/
theorem incremental_single_edit_equivalence_witness :
    ∃ R1 S1 R2 S2,
      buildReport (editFileContent wsAB "/ws/a/index.ts" (some "edited"))
          (finishCompose wsAB (rebuiltState wsAB)).2
          { changedFiles := ["/ws/a/index.ts"] } =
        Except.ok (R1, S1) ∧
      buildReport (editFileContent wsAB "/ws/a/index.ts" (some "edited")) {}
          { forceFullRebuild := true } =
        Except.ok (R2, S2) ∧
      R1.packages = R2.packages :=
  incremental_single_edit_equivalence wsAB "/ws/a/index.ts" (some "edited")
    (by decide) (by decide) (by decide) (by decide)
    (finishCompose wsAB (rebuiltState wsAB)).1 (finishCompose wsAB (rebuiltState wsAB)).2
    (buildReport_force_ok (show wsAB.packages.isEmpty = false from rfl) {})

end Retracify
